import Mathlib

/-
Shallow embedding of src/invokeai/backend/model_manager/cache.py.

The embedding models the cache/eviction/residency engine of the ModelCache
class: the _CacheRecord data entity, the _cached_models dictionary and
_cache_stack LRU list, _make_cache_room eviction, _offload_unlocked_models
VRAM reclamation, get_model, and the ModelLocker context manager.

Modelling choices, each forced by the shallow embedding:
  * Byte sizes and budgets are Nat; the source stores the budgets as
    float gigabytes and multiplies by GIG at use sites, so here the state
    carries the already-multiplied byte figures. None of the claims depend
    on float rounding.
  * Torch devices are opaque Nat identifiers; a model object is an MObj
    recording whether it has a to method (hasattr(model, "to")), and its
    device attribute (none when the object has no device attribute).
  * sys.getrefcount is an external runtime measurement; each record
    carries the refs value observed for it during an eviction scan.
    The frame-clearing loop in _make_cache_room only manipulates the
    garbage collector and is a no-op on the modelled state.
  * torch.cuda.memory_allocated and the VRAMUsage deltas are external
    measurements: _offload_unlocked_models takes the starting figure and
    a per-key delta function (the source adds the measured negative
    delta to vram_in_use).
  * Python exceptions become Except values; an operation that can raise
    returns its (mutated) state together with the outcome, because a
    raising Python method leaves its side effects in place.
-/

/-- actual size of a gig, from the source constant GIG. -/
def GIG : Nat := 1073741824

/-- Error taxonomy: AssertionError from _CacheRecord.unlock underflow,
the not-found raise in get_model, an exception out of the provider load
call, an exception out of a model.to tier transfer, and the
AttributeError raised when model.device is read on an object without a
device attribute. -/
inductive CacheError where
  | lockUnderflow
  | resourceNotFound
  | loadError
  | transferError
  | attributeError
deriving DecidableEq, Repr

/-- A cached model object: whether it has a to method, and its device
attribute (none when absent). -/
structure MObj where
  hasTo : Bool
  device : Option Nat
deriving DecidableEq, Repr

/-- _CacheRecord: size, model, lock count, plus the externally observed
sys.getrefcount figure used by the eviction scan. The cache back
pointer of the source is supplied as an argument where needed. -/
structure CacheRecord where
  size : Nat
  model : MObj
  locks : Int
  refs : Nat
deriving DecidableEq, Repr

/-- _CacheRecord.lock: self._locks += 1. -/
def CacheRecord.lock (r : CacheRecord) : CacheRecord :=
  { r with locks := r.locks + 1 }

/-- _CacheRecord.unlock: self._locks -= 1; assert self._locks >= 0.
The failed assertion is fatal, so the error branch carries no state. -/
def CacheRecord.unlock (r : CacheRecord) : Except CacheError CacheRecord :=
  if r.locks - 1 < 0 then .error .lockUnderflow
  else .ok { r with locks := r.locks - 1 }

/-- _CacheRecord.locked property: self._locks > 0. -/
def CacheRecord.locked (r : CacheRecord) : Bool :=
  r.locks > 0

/-- _CacheRecord.loaded property: model is not None and has a device
attribute and that device differs from the storage device. -/
def CacheRecord.loaded (storageDevice : Nat) (r : CacheRecord) : Bool :=
  match r.model.device with
  | some d => d ≠ storageDevice
  | none => false

/-- Python substring test helper: does pat occur as a prefix of s. -/
def charsPrefix : List Char → List Char → Bool
  | [], _ => true
  | _ :: _, [] => false
  | p :: ps, c :: cs => p = c && charsPrefix ps cs

/-- Python substring test helper: does pat occur anywhere in s. -/
def charsInfix (pat : List Char) : List Char → Bool
  | [] => charsPrefix pat []
  | c :: cs => charsPrefix pat (c :: cs) || charsInfix pat cs

/-- The test onnx in model_key from _make_cache_room. -/
def hasOnnx (k : String) : Bool :=
  charsInfix "onnx".toList k.toList

/-- The eviction condition of _make_cache_room, exactly as the source
parses: not cache_entry.locked and refs <= 3 if "onnx" in model_key
else 2 is a conditional expression, so for a key without onnx the
condition is the truthy constant 2 and the entry is evicted even when
locked. -/
def evictCond (key : String) (r : CacheRecord) : Bool :=
  if hasOnnx key then !r.locked && r.refs ≤ 3 else true

/-- The eviction condition the source comments describe (a refcount
threshold of 3 for onnx keys and 2 otherwise, applied only to unlocked
entries); used to state how the shipped condition diverges from it. -/
def evictCondIntended (key : String) (r : CacheRecord) : Bool :=
  !r.locked && r.refs ≤ (if hasOnnx key then 3 else 2)

/-- CacheStats, the telemetry dataclass. -/
structure CacheStats where
  hits : Nat
  misses : Nat
  highWatermark : Nat
  inCache : Nat
  cleared : Nat
  cacheSizeStat : Nat
  loadedModelSizes : List (String × Nat)
deriving DecidableEq, Repr

/-- Association-list lookup for the _cached_models dictionary. -/
def lookupKey (k : String) : List (String × CacheRecord) → Option CacheRecord
  | [] => none
  | p :: rest => if p.1 = k then some p.2 else lookupKey k rest

/-- Removal of a key binding, del self._cached_models[model_key]. -/
def eraseKey (k : String) : List (String × CacheRecord) → List (String × CacheRecord)
  | [] => []
  | p :: rest => if p.1 = k then rest else p :: eraseKey k rest

/-- Replace the record bound to a key in place (mutation of the shared
_CacheRecord object through the dictionary). -/
def updateKey (k : String) (f : CacheRecord → CacheRecord) :
    List (String × CacheRecord) → List (String × CacheRecord)
  | [] => []
  | p :: rest => if p.1 = k then (p.1, f p.2) :: rest else p :: updateKey k f rest

/-- list.remove on the _cache_stack, first occurrence only; absent key
is a no-op (the source wraps the call in suppress). -/
def eraseStr (k : String) : List String → List String
  | [] => []
  | s :: rest => if s = k then rest else s :: eraseStr k rest

/-- Sum of record sizes, _cache_size. -/
def sizeSum : List (String × CacheRecord) → Nat
  | [] => 0
  | p :: rest => p.2.size + sizeSum rest

/-- ModelCache state: the _cached_models dictionary (insertion order
association list), the _cache_stack LRU list (least recently used
first), the byte budgets, the offload policy flag, the two devices and
the optional stats sink. -/
structure ModelCache where
  cachedModels : List (String × CacheRecord)
  cacheStack : List String
  maxCacheSizeBytes : Nat
  maxVramCacheBytes : Nat
  lazyOffloading : Bool
  executionDevice : Nat
  storageDevice : Nat
  stats : Option CacheStats
deriving DecidableEq, Repr

/-- _cache_size on the state. -/
def ModelCache.cacheSize (c : ModelCache) : Nat :=
  sizeSum c.cachedModels

/-- Update one record of the dictionary. -/
def ModelCache.updateRecord (c : ModelCache) (k : String)
    (f : CacheRecord → CacheRecord) : ModelCache :=
  { c with cachedModels := updateKey k f c.cachedModels }

/-- The while loop of _make_cache_room. Arguments: budget figures, the
remaining stack suffix from position pos, the dictionary, the running
current_size, and the cleared counter. Returns the surviving stack
suffix in order, the dictionary, the final current_size and the
cleared count. When an entry is evicted the loop stays at the same
position; when it is kept pos advances. current_size is an Int because
the source manipulates a plain Python int. -/
def makeRoomLoop (maxSize bytesNeeded : Nat) :
    List String → List (String × CacheRecord) → Int → Nat →
    List String × List (String × CacheRecord) × Int × Nat
  | [], models, cur, cleared => ([], models, cur, cleared)
  | k :: rest, models, cur, cleared =>
    if cur + (bytesNeeded : Int) > (maxSize : Int) then
      match lookupKey k models with
      | some r =>
        if evictCond k r then
          makeRoomLoop maxSize bytesNeeded rest (eraseKey k models)
            (cur - (r.size : Int)) (cleared + 1)
        else
          match makeRoomLoop maxSize bytesNeeded rest models cur cleared with
          | (s, m, c, cl) => (k :: s, m, c, cl)
      | none =>
        match makeRoomLoop maxSize bytesNeeded rest models cur cleared with
        | (s, m, c, cl) => (k :: s, m, c, cl)
    else (k :: rest, models, cur, cleared)

/-- _make_cache_room: scan the stack from the least recently used end,
evicting entries satisfying the shipped condition until the budget
target holds or the stack is exhausted; never raises. The trailing
gc.collect and cache emptying calls are no-ops on the modelled
state. -/
def ModelCache.makeCacheRoom (c : ModelCache) (modelSize : Nat) : ModelCache :=
  match makeRoomLoop c.maxCacheSizeBytes modelSize c.cacheStack c.cachedModels
      ((c.cacheSize : Int)) 0 with
  | (stack, models, _, cleared) =>
    { c with cachedModels := models, cacheStack := stack,
             stats := c.stats.map (fun s => { s with cleared := s.cleared + cleared }) }

/-- Stable insertion of a key/record pair by ascending record size,
matching the stability of Python sorted with key size. -/
def insertBySize (p : String × CacheRecord) :
    List (String × CacheRecord) → List (String × CacheRecord)
  | [] => [p]
  | q :: rest => if p.2.size ≤ q.2.size then p :: q :: rest else q :: insertBySize p rest

/-- sorted(self._cached_models.items(), key=lambda x: x[1].size). -/
def sortBySize : List (String × CacheRecord) → List (String × CacheRecord)
  | [] => []
  | p :: rest => insertBySize p (sortBySize rest)

/-- The for loop of _offload_unlocked_models over the size-sorted item
list: break once vram_in_use is at or below the reserve; move each
unlocked loaded entry to the storage device, adding the measured
(negative) VRAM delta for that key to vram_in_use. Returns the keys
offloaded, in scan order, and the final vram_in_use figure. -/
def offloadScan (reserved : Nat) (storageDevice : Nat) (freed : String → Int) :
    List (String × CacheRecord) → Int → List String × Int
  | [], vram => ([], vram)
  | (k, r) :: rest, vram =>
    if vram ≤ (reserved : Int) then ([], vram)
    else if !r.locked && r.loaded storageDevice then
      match offloadScan reserved storageDevice freed rest (vram + freed k) with
      | (ks, v) => (k :: ks, v)
    else offloadScan reserved storageDevice freed rest vram

/-- Move a record to the storage device, cache_entry.model.to(storage). -/
def demoteRecord (storageDevice : Nat) (r : CacheRecord) : CacheRecord :=
  { r with model := { r.model with device := some storageDevice } }

/-- _offload_unlocked_models: size_needed is accepted but unused, as in
the source; vramInUse is the torch.cuda.memory_allocated reading taken
at entry and freed gives the measured per-key delta. The trailing
gc.collect and empty_cache calls are no-ops on the modelled state. -/
def ModelCache.offloadUnlockedModels (c : ModelCache) (sizeNeeded : Nat)
    (vramInUse : Int) (freed : String → Int) : ModelCache :=
  match offloadScan c.maxVramCacheBytes c.storageDevice freed
      (sortBySize c.cachedModels) vramInUse with
  | (offKeys, _) =>
    let _ := sizeNeeded
    let upd := fun (p : String × CacheRecord) =>
      if offKeys.contains p.1 then (p.1, demoteRecord c.storageDevice p.2) else p
    { c with cachedModels := c.cachedModels.map upd }

/-- max-update of stats.loaded_model_sizes[key]. -/
def updateLoadedSize (k : String) (sz : Nat) :
    List (String × Nat) → List (String × Nat)
  | [] => [(k, sz)]
  | p :: rest => if p.1 = k then (p.1, max p.2 sz) :: rest else p :: updateLoadedSize k sz rest

/-- The stats block of get_model, executed when self.stats is set. -/
def updateStatsBlock (c : ModelCache) (key : String) (modelSize : Nat) : ModelCache :=
  { c with stats := c.stats.map (fun s =>
      { s with cacheSizeStat := c.maxCacheSizeBytes,
               highWatermark := max s.highWatermark c.cacheSize,
               inCache := c.cachedModels.length,
               loadedModelSizes := updateLoadedSize key modelSize s.loadedModelSizes }) }

/-- The data the returned ModelLocker carries: key, gpu_load flag and
size_needed (the size stored in the cache record). -/
structure LockerInfo where
  key : String
  gpuLoad : Bool
  sizeNeeded : Nat
deriving DecidableEq, Repr

/-- get_model. pathExists models os.path.exists(model_path); key is the
cache key derived from path and submodel; modelSize is
model_info.get_size(submodel); loadResult is the outcome of the
provider call model_info.get_model (ok with the model object, or the
exception it raised); newRefs is the sys.getrefcount figure the new
record will exhibit. Returns the state after the call together with
the outcome, because a raising call leaves its prior mutations in
place. -/
def ModelCache.getModel (c : ModelCache) (pathExists : Bool) (key : String)
    (modelSize : Nat) (loadResult : Except CacheError MObj) (gpuLoad : Bool)
    (newRefs : Nat) : ModelCache × Except CacheError LockerInfo :=
  if !pathExists then (c, .error .resourceNotFound)
  else
    match lookupKey key c.cachedModels with
    | none =>
      let c1 : ModelCache :=
        { c with stats := c.stats.map (fun s => { s with misses := s.misses + 1 }) }
      let c2 := c1.makeCacheRoom modelSize
      match loadResult with
      | .error e => (c2, .error e)
      | .ok model =>
        let rec0 : CacheRecord := ⟨modelSize, model, 0, newRefs⟩
        let c3 := { c2 with cachedModels := c2.cachedModels ++ [(key, rec0)] }
        let c4 := updateStatsBlock c3 key modelSize
        let c5 := { c4 with cacheStack := eraseStr key c4.cacheStack ++ [key] }
        (c5, .ok ⟨key, gpuLoad, rec0.size⟩)
    | some entry =>
      let c1 : ModelCache :=
        { c with stats := c.stats.map (fun s => { s with hits := s.hits + 1 }) }
      let c2 := updateStatsBlock c1 key modelSize
      let c3 := { c2 with cacheStack := eraseStr key c2.cacheStack ++ [key] }
      (c3, .ok ⟨key, gpuLoad, entry.size⟩)

/-- ModelLocker.__enter__select. The record is looked up by key (the
source holds object references to the same record). vramInUse and
freed feed the lazy _offload_unlocked_models call; toRaises tells
whether the model.to(execution_device) transfer raises. Returns the
state after the call and either the model object handed to the with
body or the propagated exception. -/
def ModelLocker.enter (c : ModelCache) (key : String) (gpuLoad : Bool)
    (sizeNeeded : Nat) (vramInUse : Int) (freed : String → Int) (toRaises : Bool) :
    ModelCache × Except CacheError MObj :=
  match lookupKey key c.cachedModels with
  | none => (c, .error .loadError)
  | some entry =>
    if !entry.model.hasTo then (c, .ok entry.model)
    else if gpuLoad then
      let c1 := c.updateRecord key CacheRecord.lock
      let c2 := if c1.lazyOffloading
        then c1.offloadUnlockedModels sizeNeeded vramInUse freed else c1
      match lookupKey key c2.cachedModels with
      | none => (c2, .error .loadError)
      | some entry2 =>
        match entry2.model.device with
        | none =>
          match entry2.unlock with
          | .ok r2 => (c2.updateRecord key (fun _ => r2), .error .attributeError)
          | .error e => (c2, .error e)
        | some d =>
          if d ≠ c2.executionDevice then
            if toRaises then
              match entry2.unlock with
              | .ok r2 => (c2.updateRecord key (fun _ => r2), .error .transferError)
              | .error e => (c2, .error e)
            else
              let c3 := c2.updateRecord key
                (fun r => { r with model := { r.model with device := some c2.executionDevice } })
              match lookupKey key c3.cachedModels with
              | some entry3 => (c3, .ok entry3.model)
              | none => (c3, .error .loadError)
          else (c2, .ok entry2.model)
    else
      if entry.loaded c.storageDevice && !entry.locked then
        let c1 := c.updateRecord key
          (fun r => { r with model := { r.model with device := some c.storageDevice } })
        match lookupKey key c1.cachedModels with
        | some entry1 => (c1, .ok entry1.model)
        | none => (c1, .error .loadError)
      else (c, .ok entry.model)

/-- ModelLocker.__exit__select: return immediately when the model has no
to method; otherwise unlock unconditionally (even when __enter__ took
no lock because gpu_load was false) and, when lazy offloading is off,
run _offload_unlocked_models with default size 0. -/
def ModelLocker.exit (c : ModelCache) (key : String) (vramInUse : Int)
    (freed : String → Int) : ModelCache × Except CacheError Unit :=
  match lookupKey key c.cachedModels with
  | none => (c, .error .loadError)
  | some entry =>
    if !entry.model.hasTo then (c, .ok ())
    else
      match entry.unlock with
      | .error e => (c, .error e)
      | .ok r1 =>
        let c1 := c.updateRecord key (fun _ => r1)
        if !c1.lazyOffloading then (c1.offloadUnlockedModels 0 vramInUse freed, .ok ())
        else (c1, .ok ())

/-- The dictionary keys are distinct, as Python dict keys are. -/
def keysNodup (l : List (String × CacheRecord)) : Prop :=
  (l.map Prod.fst).Nodup

/-- The registry invariant of the spec: the LRU stack has no duplicates
and holds exactly the keys of the dictionary. -/
def stackInv (c : ModelCache) : Prop :=
  c.cacheStack.Nodup ∧ keysNodup c.cachedModels ∧
  (∀ k ∈ c.cacheStack, (lookupKey k c.cachedModels).isSome = true) ∧
  (∀ p ∈ c.cachedModels, p.1 ∈ c.cacheStack)

theorem lookupKey_mem {k : String} {r : CacheRecord} :
    ∀ {l : List (String × CacheRecord)}, lookupKey k l = some r → (k, r) ∈ l := by
  intro l
  induction l with
  | nil => intro h; simp [lookupKey] at h
  | cons p rest ih =>
    intro h
    simp only [lookupKey] at h
    by_cases hp : p.1 = k
    · simp [hp] at h
      rw [List.mem_cons]
      left
      obtain ⟨a, b⟩ := p
      simp_all
    · simp [hp] at h
      rw [List.mem_cons]
      right
      exact ih h

theorem mem_lookupKey {k : String} {r : CacheRecord} :
    ∀ {l : List (String × CacheRecord)}, keysNodup l → (k, r) ∈ l → lookupKey k l = some r := by
  intro l
  induction l with
  | nil => intro _ h; simp at h
  | cons p rest ih =>
    intro hnd h
    simp only [keysNodup, List.map_cons, List.nodup_cons] at hnd
    rcases List.mem_cons.1 h with h1 | h2
    · simp [lookupKey, ← h1]
    · have hk : k ∈ rest.map Prod.fst := List.mem_map_of_mem Prod.fst h2
      have hne : p.1 ≠ k := by
        intro he
        exact hnd.1 (he ▸ hk)
      simp [lookupKey, hne]
      exact ih hnd.2 h2

theorem lookupKey_isSome_iff {k : String} :
    ∀ {l : List (String × CacheRecord)},
      (lookupKey k l).isSome = true ↔ k ∈ l.map Prod.fst := by
  intro l
  induction l with
  | nil => simp [lookupKey]
  | cons p rest ih =>
    by_cases hp : p.1 = k
    · simp [lookupKey, hp]
    · simp [lookupKey, hp, ih, Ne.symm hp]

theorem mem_eraseKey {k : String} {p : String × CacheRecord} :
    ∀ {l : List (String × CacheRecord)}, p ∈ eraseKey k l → p ∈ l := by
  intro l
  induction l with
  | nil => intro h; simp [eraseKey] at h
  | cons q rest ih =>
    intro h
    simp only [eraseKey] at h
    by_cases hq : q.1 = k
    · simp [hq] at h; exact List.mem_cons_of_mem _ h
    · simp [hq] at h
      rcases h with h1 | h2
      · exact List.mem_cons.2 (Or.inl h1)
      · exact List.mem_cons_of_mem _ (ih h2)

theorem keys_eraseKey_sublist {k : String} :
    ∀ {l : List (String × CacheRecord)},
      ((eraseKey k l).map Prod.fst).Sublist (l.map Prod.fst) := by
  intro l
  induction l with
  | nil => simp [eraseKey]
  | cons q rest ih =>
    simp only [eraseKey]
    by_cases hq : q.1 = k
    · simp [hq]
    · simp [hq]
      exact ih

theorem keysNodup_eraseKey {k : String} {l : List (String × CacheRecord)}
    (hnd : keysNodup l) : keysNodup (eraseKey k l) :=
  List.Nodup.sublist keys_eraseKey_sublist hnd

theorem lookupKey_eraseKey_self {k : String} :
    ∀ {l : List (String × CacheRecord)}, keysNodup l →
      lookupKey k (eraseKey k l) = none := by
  intro l
  induction l with
  | nil => intro _; simp [eraseKey, lookupKey]
  | cons q rest ih =>
    intro hnd
    simp only [keysNodup, List.map_cons, List.nodup_cons] at hnd
    simp only [eraseKey]
    by_cases hq : q.1 = k
    · simp [hq]
      cases ho : lookupKey k rest with
      | none => rfl
      | some r =>
        have hk : k ∈ rest.map Prod.fst := List.mem_map_of_mem Prod.fst (lookupKey_mem ho)
        exact absurd (hq.symm ▸ hk) hnd.1
    · simp [hq, lookupKey, ih hnd.2]

theorem lookupKey_eraseKey_ne {k k' : String} (h : k' ≠ k) :
    ∀ {l : List (String × CacheRecord)},
      lookupKey k' (eraseKey k l) = lookupKey k' l := by
  intro l
  induction l with
  | nil => simp [eraseKey]
  | cons q rest ih =>
    simp only [eraseKey]
    by_cases hq : q.1 = k
    · have hkk : ¬(k = k') := fun he => h he.symm
      simp [hq, lookupKey, hkk]
    · simp only [hq, if_false, lookupKey]
      by_cases hq' : q.1 = k'
      · simp [hq']
      · simp [hq', ih]

theorem keys_updateKey {k : String} {f : CacheRecord → CacheRecord} :
    ∀ {l : List (String × CacheRecord)},
      (updateKey k f l).map Prod.fst = l.map Prod.fst := by
  intro l
  induction l with
  | nil => simp [updateKey]
  | cons q rest ih =>
    simp only [updateKey]
    by_cases hq : q.1 = k
    · simp [hq]
    · simp [hq, ih]

theorem keysNodup_updateKey {k : String} {f : CacheRecord → CacheRecord}
    {l : List (String × CacheRecord)} (hnd : keysNodup l) :
    keysNodup (updateKey k f l) := by
  unfold keysNodup
  rw [keys_updateKey]
  exact hnd

theorem lookupKey_updateKey_self {k : String} {f : CacheRecord → CacheRecord} :
    ∀ {l : List (String × CacheRecord)},
      lookupKey k (updateKey k f l) = (lookupKey k l).map f := by
  intro l
  induction l with
  | nil => simp [updateKey, lookupKey]
  | cons q rest ih =>
    simp only [updateKey]
    by_cases hq : q.1 = k
    · simp [hq, lookupKey]
    · simp [lookupKey, hq, ih]

theorem lookupKey_updateKey_ne {k k' : String} (h : k' ≠ k)
    {f : CacheRecord → CacheRecord} :
    ∀ {l : List (String × CacheRecord)},
      lookupKey k' (updateKey k f l) = lookupKey k' l := by
  intro l
  induction l with
  | nil => simp [updateKey]
  | cons q rest ih =>
    simp only [updateKey]
    by_cases hq : q.1 = k
    · have hkk : ¬(k = k') := fun he => h he.symm
      simp [hq, lookupKey, hkk]
    · simp only [hq, if_false, lookupKey]
      by_cases hq' : q.1 = k'
      · simp [hq']
      · simp [hq', ih]

theorem sizeSum_eraseKey {k : String} {r : CacheRecord} :
    ∀ {l : List (String × CacheRecord)}, lookupKey k l = some r →
      (sizeSum (eraseKey k l) : Int) = (sizeSum l : Int) - (r.size : Int) := by
  intro l
  induction l with
  | nil => intro h; simp [lookupKey] at h
  | cons q rest ih =>
    intro h
    simp only [lookupKey] at h
    by_cases hq : q.1 = k
    · simp [hq] at h
      subst h
      simp only [eraseKey, sizeSum]
      rw [if_pos hq]
      push_cast
      ring
    · simp [hq] at h
      have hih := ih h
      simp only [eraseKey, sizeSum]
      rw [if_neg hq]
      simp only [sizeSum]
      push_cast
      push_cast at hih
      omega

theorem lookupKey_append_self {k : String} {r : CacheRecord} :
    ∀ {l : List (String × CacheRecord)}, lookupKey k l = none →
      lookupKey k (l ++ [(k, r)]) = some r := by
  intro l
  induction l with
  | nil => intro _; simp [lookupKey]
  | cons q rest ih =>
    intro h
    simp only [lookupKey] at h
    by_cases hq : q.1 = k
    · simp [hq] at h
    · simp [hq] at h
      simp [lookupKey, hq, ih h]

theorem lookupKey_append_ne {k k' : String} {r : CacheRecord} (h : k' ≠ k) :
    ∀ {l : List (String × CacheRecord)},
      lookupKey k' (l ++ [(k, r)]) = lookupKey k' l := by
  intro l
  induction l with
  | nil => simp [lookupKey, Ne.symm h]
  | cons q rest ih =>
    simp only [lookupKey, List.cons_append]
    by_cases hq : q.1 = k'
    · simp [lookupKey, hq]
    · simp [lookupKey, hq, ih]

theorem eraseStr_of_not_mem {k : String} :
    ∀ {l : List String}, k ∉ l → eraseStr k l = l := by
  intro l
  induction l with
  | nil => intro _; rfl
  | cons s rest ih =>
    intro h
    simp only [List.mem_cons, not_or] at h
    simp [eraseStr, Ne.symm h.1, ih h.2]

theorem mem_eraseStr {k k' : String} :
    ∀ {l : List String}, k' ∈ eraseStr k l → k' ∈ l := by
  intro l
  induction l with
  | nil => intro h; simp [eraseStr] at h
  | cons s rest ih =>
    intro h
    simp only [eraseStr] at h
    by_cases hs : s = k
    · simp [hs] at h; exact List.mem_cons_of_mem _ h
    · simp [hs] at h
      rcases h with h1 | h2
      · exact List.mem_cons.2 (Or.inl h1)
      · exact List.mem_cons_of_mem _ (ih h2)

theorem mem_eraseStr_of_ne {k k' : String} (hne : k' ≠ k) :
    ∀ {l : List String}, k' ∈ l → k' ∈ eraseStr k l := by
  intro l
  induction l with
  | nil => intro h; simp at h
  | cons s rest ih =>
    intro h
    simp only [eraseStr]
    by_cases hs : s = k
    · simp [hs]
      rcases List.mem_cons.1 h with h1 | h2
      · exact absurd (h1 ▸ hs) hne
      · exact h2
    · simp [hs]
      rcases List.mem_cons.1 h with h1 | h2
      · exact Or.inl h1
      · exact Or.inr (ih h2)

theorem eraseStr_sublist {k : String} :
    ∀ {l : List String}, (eraseStr k l).Sublist l := by
  intro l
  induction l with
  | nil => simp [eraseStr]
  | cons s rest ih =>
    simp only [eraseStr]
    by_cases hs : s = k
    · simp [hs]
    · simp [hs]
      exact ih

theorem nodup_eraseStr {k : String} {l : List String} (hnd : l.Nodup) :
    (eraseStr k l).Nodup :=
  List.Nodup.sublist eraseStr_sublist hnd

theorem not_mem_eraseStr_self {k : String} :
    ∀ {l : List String}, l.Nodup → k ∉ eraseStr k l := by
  intro l
  induction l with
  | nil => intro _ h; simp [eraseStr] at h
  | cons s rest ih =>
    intro hnd
    simp only [List.nodup_cons] at hnd
    simp only [eraseStr]
    by_cases hs : s = k
    · simp [hs]
      intro hk
      exact hnd.1 (hs ▸ hk)
    · simp [hs]
      exact ⟨fun h1 => hs h1.symm, ih hnd.2⟩

theorem mr_lookup_mono (M B : Nat) {k : String} {r : CacheRecord} :
    ∀ (stack : List String) (models : List (String × CacheRecord)) (cur : Int) (cl : Nat),
      keysNodup models →
      lookupKey k (makeRoomLoop M B stack models cur cl).2.1 = some r →
      lookupKey k models = some r := by
  intro stack
  induction stack with
  | nil =>
    intro models cur cl _ h
    simpa [makeRoomLoop] using h
  | cons k0 rest ih =>
    intro models cur cl hnd h
    rw [makeRoomLoop] at h
    split at h
    · split at h
      · next r0 hl =>
        split at h
        · have h2 := ih (eraseKey k0 models) _ _ (keysNodup_eraseKey hnd) h
          by_cases hk : k = k0
          · subst hk
            rw [lookupKey_eraseKey_self hnd] at h2
            cases h2
          · rw [lookupKey_eraseKey_ne hk] at h2
            exact h2
        · split at h
          next s m cu cl2 hres =>
          apply ih models cur cl hnd
          rw [hres]
          exact h
      · next hl =>
        split at h
        next s m cu cl2 hres =>
        apply ih models cur cl hnd
        rw [hres]
        exact h
    · exact h

theorem mr_lookup_none (M B : Nat) {k : String}
    {stack : List String} {models : List (String × CacheRecord)} {cur : Int} {cl : Nat}
    (hnd : keysNodup models) (h : lookupKey k models = none) :
    lookupKey k (makeRoomLoop M B stack models cur cl).2.1 = none := by
  cases ho : lookupKey k (makeRoomLoop M B stack models cur cl).2.1 with
  | none => rfl
  | some r =>
    have := mr_lookup_mono M B stack models cur cl hnd ho
    rw [h] at this
    cases this

theorem mr_keysNodup (M B : Nat) :
    ∀ (stack : List String) (models : List (String × CacheRecord)) (cur : Int) (cl : Nat),
      keysNodup models →
      keysNodup (makeRoomLoop M B stack models cur cl).2.1 := by
  intro stack
  induction stack with
  | nil =>
    intro models cur cl hnd
    simpa [makeRoomLoop] using hnd
  | cons k0 rest ih =>
    intro models cur cl hnd
    rw [makeRoomLoop]
    split
    · split
      · next r0 hl =>
        split
        · exact ih _ _ _ (keysNodup_eraseKey hnd)
        · split
          next s m cu cl2 hres =>
          have := ih models cur cl hnd
          rw [hres] at this
          exact this
      · next hl =>
        split
        next s m cu cl2 hres =>
        have := ih models cur cl hnd
        rw [hres] at this
        exact this
    · exact hnd

theorem mr_stack_sublist (M B : Nat) :
    ∀ (stack : List String) (models : List (String × CacheRecord)) (cur : Int) (cl : Nat),
      (makeRoomLoop M B stack models cur cl).1.Sublist stack := by
  intro stack
  induction stack with
  | nil =>
    intro models cur cl
    simp [makeRoomLoop]
  | cons k0 rest ih =>
    intro models cur cl
    rw [makeRoomLoop]
    split
    · split
      · next r0 hl =>
        split
        · exact List.Sublist.cons k0 (ih _ _ _)
        · split
          next s m cu cl2 hres =>
          have := ih models cur cl
          rw [hres] at this
          exact List.Sublist.cons₂ k0 this
      · next hl =>
        split
        next s m cu cl2 hres =>
        have := ih models cur cl
        rw [hres] at this
        exact List.Sublist.cons₂ k0 this
    · exact List.Sublist.refl _

theorem mr_cur_eq (M B : Nat) :
    ∀ (stack : List String) (models : List (String × CacheRecord)) (cur : Int) (cl : Nat),
      cur = (sizeSum models : Int) →
      (makeRoomLoop M B stack models cur cl).2.2.1 =
        (sizeSum (makeRoomLoop M B stack models cur cl).2.1 : Int) := by
  intro stack
  induction stack with
  | nil =>
    intro models cur cl hcur
    simpa [makeRoomLoop] using hcur
  | cons k0 rest ih =>
    intro models cur cl hcur
    rw [makeRoomLoop]
    split
    · split
      · next r0 hl =>
        split
        · apply ih
          rw [sizeSum_eraseKey hl, hcur]
        · split
          next s m cu cl2 hres =>
          have := ih models cur cl hcur
          rw [hres] at this
          exact this
      · next hl =>
        split
        next s m cu cl2 hres =>
        have := ih models cur cl hcur
        rw [hres] at this
        exact this
    · exact hcur

theorem mr_not_in_stack (M B : Nat) {k : String} :
    ∀ (stack : List String) (models : List (String × CacheRecord)) (cur : Int) (cl : Nat),
      k ∉ stack →
      lookupKey k (makeRoomLoop M B stack models cur cl).2.1 = lookupKey k models := by
  intro stack
  induction stack with
  | nil =>
    intro models cur cl _
    simp [makeRoomLoop]
  | cons k0 rest ih =>
    intro models cur cl hk
    have hk0 : k ≠ k0 := fun he => hk (he ▸ List.mem_cons_self k0 rest)
    have hkr : k ∉ rest := fun hm => hk (List.mem_cons_of_mem _ hm)
    rw [makeRoomLoop]
    split
    · split
      · next r0 hl =>
        split
        · rw [ih _ _ _ hkr, lookupKey_eraseKey_ne hk0]
        · split
          next s m cu cl2 hres =>
          have := ih models cur cl hkr
          rw [hres] at this
          exact this
      · next hl =>
        split
        next s m cu cl2 hres =>
        have := ih models cur cl hkr
        rw [hres] at this
        exact this
    · rfl


theorem makeRoomLoop_cons_stop {M B : Nat} {k0 : String} {rest : List String}
    {models : List (String × CacheRecord)} {cur : Int} {cl : Nat}
    (hb : ¬(cur + (B : Int) > (M : Int))) :
    makeRoomLoop M B (k0 :: rest) models cur cl = (k0 :: rest, models, cur, cl) := by
  rw [makeRoomLoop, if_neg hb]

theorem makeRoomLoop_cons_evict {M B : Nat} {k0 : String} {rest : List String}
    {models : List (String × CacheRecord)} {cur : Int} {cl : Nat} {r0 : CacheRecord}
    (hb : cur + (B : Int) > (M : Int)) (hl : lookupKey k0 models = some r0)
    (hc : evictCond k0 r0 = true) :
    makeRoomLoop M B (k0 :: rest) models cur cl =
      makeRoomLoop M B rest (eraseKey k0 models) (cur - (r0.size : Int)) (cl + 1) := by
  rw [makeRoomLoop, if_pos hb, hl]
  simp [hc]

theorem makeRoomLoop_cons_keep {M B : Nat} {k0 : String} {rest : List String}
    {models : List (String × CacheRecord)} {cur : Int} {cl : Nat} {r0 : CacheRecord}
    (hb : cur + (B : Int) > (M : Int)) (hl : lookupKey k0 models = some r0)
    (hc : ¬(evictCond k0 r0 = true)) :
    makeRoomLoop M B (k0 :: rest) models cur cl =
      (k0 :: (makeRoomLoop M B rest models cur cl).1,
        (makeRoomLoop M B rest models cur cl).2) := by
  rw [makeRoomLoop, if_pos hb, hl]
  simp only [hc, if_false, Bool.false_eq_true]

theorem makeRoomLoop_cons_none {M B : Nat} {k0 : String} {rest : List String}
    {models : List (String × CacheRecord)} {cur : Int} {cl : Nat}
    (hb : cur + (B : Int) > (M : Int)) (hl : lookupKey k0 models = none) :
    makeRoomLoop M B (k0 :: rest) models cur cl =
      (k0 :: (makeRoomLoop M B rest models cur cl).1,
        (makeRoomLoop M B rest models cur cl).2) := by
  rw [makeRoomLoop, if_pos hb, hl]

theorem mr_in_res_stack (M B : Nat) {k : String} :
    ∀ (stack : List String) (models : List (String × CacheRecord)) (cur : Int) (cl : Nat),
      stack.Nodup →
      k ∈ (makeRoomLoop M B stack models cur cl).1 →
      lookupKey k (makeRoomLoop M B stack models cur cl).2.1 = lookupKey k models := by
  intro stack
  induction stack with
  | nil =>
    intro models cur cl _ h
    simp [makeRoomLoop] at h
  | cons k0 rest ih =>
    intro models cur cl hst h
    simp only [List.nodup_cons] at hst
    by_cases hb : cur + (B : Int) > (M : Int)
    · cases hl : lookupKey k0 models with
      | some r0 =>
        by_cases hc : evictCond k0 r0 = true
        · rw [makeRoomLoop_cons_evict hb hl hc] at h ⊢
          have hsub := mr_stack_sublist M B rest (eraseKey k0 models)
            (cur - (r0.size : Int)) (cl + 1)
          have hkr : k ∈ rest := hsub.subset h
          have hk0 : k ≠ k0 := fun he => hst.1 (he ▸ hkr)
          rw [ih _ _ _ hst.2 h, lookupKey_eraseKey_ne hk0]
        · rw [makeRoomLoop_cons_keep hb hl hc] at h ⊢
          rcases List.mem_cons.1 h with h1 | h2
          · subst h1
            exact mr_not_in_stack M B rest models cur cl hst.1
          · exact ih models cur cl hst.2 h2
      | none =>
        rw [makeRoomLoop_cons_none hb hl] at h ⊢
        rcases List.mem_cons.1 h with h1 | h2
        · subst h1
          exact mr_not_in_stack M B rest models cur cl hst.1
        · exact ih models cur cl hst.2 h2
    · rw [makeRoomLoop_cons_stop hb]

theorem mr_evicted_none (M B : Nat) {k : String} :
    ∀ (stack : List String) (models : List (String × CacheRecord)) (cur : Int) (cl : Nat),
      stack.Nodup → keysNodup models →
      k ∈ stack → k ∉ (makeRoomLoop M B stack models cur cl).1 →
      lookupKey k (makeRoomLoop M B stack models cur cl).2.1 = none := by
  intro stack
  induction stack with
  | nil =>
    intro models cur cl _ _ hin _
    simp at hin
  | cons k0 rest ih =>
    intro models cur cl hst hnd hin hout
    simp only [List.nodup_cons] at hst
    by_cases hb : cur + (B : Int) > (M : Int)
    · cases hl : lookupKey k0 models with
      | some r0 =>
        by_cases hc : evictCond k0 r0 = true
        · rw [makeRoomLoop_cons_evict hb hl hc] at hout ⊢
          by_cases hk : k = k0
          · subst hk
            rw [mr_not_in_stack M B rest _ _ _ hst.1]
            exact lookupKey_eraseKey_self hnd
          · have hkr : k ∈ rest := by
              rcases List.mem_cons.1 hin with h1 | h2
              · exact absurd h1 hk
              · exact h2
            exact ih _ _ _ hst.2 (keysNodup_eraseKey hnd) hkr hout
        · rw [makeRoomLoop_cons_keep hb hl hc] at hout ⊢
          have hk0 : k ≠ k0 := fun he => hout (by rw [he]; exact List.mem_cons_self _ _)
          have hout2 : k ∉ (makeRoomLoop M B rest models cur cl).1 :=
            fun hm => hout (List.mem_cons_of_mem _ hm)
          have hkr : k ∈ rest := by
            rcases List.mem_cons.1 hin with h1 | h2
            · exact absurd h1 hk0
            · exact h2
          exact ih models cur cl hst.2 hnd hkr hout2
      | none =>
        rw [makeRoomLoop_cons_none hb hl] at hout ⊢
        by_cases hk : k = k0
        · subst hk
          exact mr_lookup_none M B hnd hl
        · have hk0 : k ≠ k0 := hk
          have hout2 : k ∉ (makeRoomLoop M B rest models cur cl).1 :=
            fun hm => hout (List.mem_cons_of_mem _ hm)
          have hkr : k ∈ rest := by
            rcases List.mem_cons.1 hin with h1 | h2
            · exact absurd h1 hk0
            · exact h2
          exact ih models cur cl hst.2 hnd hkr hout2
    · rw [makeRoomLoop_cons_stop hb] at hout
      exact absurd hin hout

theorem mr_budget (M B : Nat) :
    ∀ (stack : List String) (models : List (String × CacheRecord)) (cur : Int) (cl : Nat),
      keysNodup models →
      ¬((makeRoomLoop M B stack models cur cl).2.2.1 + (B : Int) > (M : Int)) ∨
      (∀ k r, k ∈ stack →
        lookupKey k (makeRoomLoop M B stack models cur cl).2.1 = some r →
        evictCond k r = false) := by
  intro stack
  induction stack with
  | nil =>
    intro models cur cl _
    right
    intro k r hk _
    simp at hk
  | cons k0 rest ih =>
    intro models cur cl hnd
    by_cases hb : cur + (B : Int) > (M : Int)
    · cases hl : lookupKey k0 models with
      | some r0 =>
        by_cases hc : evictCond k0 r0 = true
        · rw [makeRoomLoop_cons_evict hb hl hc]
          rcases ih (eraseKey k0 models) (cur - (r0.size : Int)) (cl + 1)
            (keysNodup_eraseKey hnd) with hL | hR
          · exact Or.inl hL
          · right
            intro k r hk hlk
            rcases List.mem_cons.1 hk with h1 | h2
            · subst h1
              have hmono := mr_lookup_mono M B rest _ _ _ (keysNodup_eraseKey hnd) hlk
              rw [lookupKey_eraseKey_self hnd] at hmono
              cases hmono
            · exact hR k r h2 hlk
        · rw [makeRoomLoop_cons_keep hb hl hc]
          rcases ih models cur cl hnd with hL | hR
          · exact Or.inl hL
          · right
            intro k r hk hlk
            rcases List.mem_cons.1 hk with h1 | h2
            · subst h1
              have hmono := mr_lookup_mono M B rest models cur cl hnd hlk
              rw [hl] at hmono
              have hrr : r0 = r := by injection hmono
              have hc2 : evictCond k r0 = false := by simpa using hc
              rw [← hrr]
              exact hc2
            · exact hR k r h2 hlk
      | none =>
        rw [makeRoomLoop_cons_none hb hl]
        rcases ih models cur cl hnd with hL | hR
        · exact Or.inl hL
        · right
          intro k r hk hlk
          rcases List.mem_cons.1 hk with h1 | h2
          · subst h1
            have hmono := mr_lookup_mono M B rest models cur cl hnd hlk
            rw [hl] at hmono
            cases hmono
          · exact hR k r h2 hlk
    · left
      rw [makeRoomLoop_cons_stop hb]
      exact hb

theorem insertBySize_mem {p q : String × CacheRecord} :
    ∀ {l : List (String × CacheRecord)},
      q ∈ insertBySize p l ↔ q = p ∨ q ∈ l := by
  intro l
  induction l with
  | nil => simp [insertBySize]
  | cons x rest ih =>
    simp only [insertBySize]
    by_cases hs : p.2.size ≤ x.2.size
    · simp [hs, List.mem_cons]
    · simp [hs, List.mem_cons, ih]
      tauto

theorem sortBySize_mem {q : String × CacheRecord} :
    ∀ {l : List (String × CacheRecord)}, q ∈ sortBySize l ↔ q ∈ l := by
  intro l
  induction l with
  | nil => simp [sortBySize]
  | cons x rest ih =>
    simp only [sortBySize, insertBySize_mem, ih, List.mem_cons]

theorem insertBySize_pairwise {p : String × CacheRecord} :
    ∀ {l : List (String × CacheRecord)},
      List.Pairwise (fun a b => a.2.size ≤ b.2.size) l →
      List.Pairwise (fun a b => a.2.size ≤ b.2.size) (insertBySize p l) := by
  intro l
  induction l with
  | nil => intro _; simp [insertBySize]
  | cons x rest ih =>
    intro hp
    rw [List.pairwise_cons] at hp
    simp only [insertBySize]
    by_cases hs : p.2.size ≤ x.2.size
    · rw [if_pos hs]
      rw [List.pairwise_cons]
      constructor
      · intro b hb
        rcases List.mem_cons.1 hb with h1 | h2
        · rw [h1]; exact hs
        · exact le_trans hs (hp.1 b h2)
      · rw [List.pairwise_cons]
        exact hp
    · rw [if_neg hs]
      rw [List.pairwise_cons]
      constructor
      · intro b hb
        rcases insertBySize_mem.1 hb with h1 | h2
        · rw [h1]
          exact le_of_lt (lt_of_not_le hs)
        · exact hp.1 b h2
      · exact ih hp.2

theorem sortBySize_pairwise :
    ∀ {l : List (String × CacheRecord)},
      List.Pairwise (fun a b => a.2.size ≤ b.2.size) (sortBySize l) := by
  intro l
  induction l with
  | nil => simp [sortBySize]
  | cons x rest ih =>
    exact insertBySize_pairwise ih

theorem offloadScan_stop {reserved storageDevice : Nat} {freed : String → Int}
    {l : List (String × CacheRecord)} {vram : Int}
    (h : vram ≤ (reserved : Int)) :
    offloadScan reserved storageDevice freed l vram = ([], vram) := by
  cases l with
  | nil => rfl
  | cons p rest =>
    obtain ⟨k, r⟩ := p
    rw [offloadScan, if_pos h]

theorem offloadScan_keys {reserved storageDevice : Nat} {freed : String → Int} {k : String} :
    ∀ (l : List (String × CacheRecord)) (vram : Int),
      k ∈ (offloadScan reserved storageDevice freed l vram).1 →
      ∃ r, (k, r) ∈ l ∧ r.locked = false ∧ r.loaded storageDevice = true := by
  intro l
  induction l with
  | nil =>
    intro vram h
    simp [offloadScan] at h
  | cons p rest ih =>
    intro vram h
    obtain ⟨k0, r0⟩ := p
    rw [offloadScan] at h
    by_cases hv : vram ≤ (reserved : Int)
    · rw [if_pos hv] at h
      simp at h
    · rw [if_neg hv] at h
      by_cases hcand : (!r0.locked && r0.loaded storageDevice) = true
      · rw [if_pos hcand] at h
        rcases hres : offloadScan reserved storageDevice freed rest (vram + freed k0)
          with ⟨ks, v⟩
        rw [hres] at h
        simp only at h
        rcases List.mem_cons.1 h with h1 | h2
        · subst h1
          simp only [Bool.and_eq_true, Bool.not_eq_true'] at hcand
          exact ⟨r0, List.mem_cons_self _ _, hcand.1, hcand.2⟩
        · have hand := ih (vram + freed k0) (by rw [hres]; exact h2)
          rcases hand with ⟨r, hm, hl, hld⟩
          exact ⟨r, List.mem_cons_of_mem _ hm, hl, hld⟩
      · rw [if_neg hcand] at h
        have hand := ih vram h
        rcases hand with ⟨r, hm, hl, hld⟩
        exact ⟨r, List.mem_cons_of_mem _ hm, hl, hld⟩

theorem lookupKey_map_cond {P : String → Bool} {g : CacheRecord → CacheRecord} {k : String} :
    ∀ {l : List (String × CacheRecord)},
      lookupKey k (l.map (fun p => if P p.1 then (p.1, g p.2) else p)) =
        (lookupKey k l).map (fun r => if P k then g r else r) := by
  intro l
  induction l with
  | nil => simp [lookupKey]
  | cons q rest ih =>
    simp only [List.map_cons]
    by_cases hq : q.1 = k
    · by_cases hP : P q.1
      · rw [if_pos hP]
        simp [lookupKey, hq, hq ▸ hP]
      · rw [if_neg hP]
        simp [lookupKey, hq]
        rw [if_neg (hq ▸ hP)]
    · by_cases hP : P q.1
      · rw [if_pos hP]
        simp only [lookupKey, hq, if_false]
        rw [ih]
      · rw [if_neg hP]
        simp only [lookupKey, hq, if_false]
        rw [ih]

theorem keys_map_cond {P : String → Bool} {g : CacheRecord → CacheRecord} :
    ∀ {l : List (String × CacheRecord)},
      (l.map (fun p => if P p.1 then (p.1, g p.2) else p)).map Prod.fst = l.map Prod.fst := by
  intro l
  induction l with
  | nil => simp
  | cons q rest ih =>
    simp only [List.map_cons]
    by_cases hP : P q.1
    · rw [if_pos hP]
      simp only [List.map_cons, ih]
    · rw [if_neg hP]
      simp only [List.map_cons, ih]

/-- The keys offloaded by one _offload_unlocked_models call. -/
def offloadedKeys (c : ModelCache) (vramInUse : Int) (freed : String → Int) : List String :=
  (offloadScan c.maxVramCacheBytes c.storageDevice freed
    (sortBySize c.cachedModels) vramInUse).1

theorem offload_lookup (c : ModelCache) (sizeNeeded : Nat) (vramInUse : Int)
    (freed : String → Int) (k : String) :
    lookupKey k (c.offloadUnlockedModels sizeNeeded vramInUse freed).cachedModels =
      (lookupKey k c.cachedModels).map
        (fun r => if (offloadedKeys c vramInUse freed).contains k
          then demoteRecord c.storageDevice r else r) := by
  unfold ModelCache.offloadUnlockedModels offloadedKeys
  rcases hres : offloadScan c.maxVramCacheBytes c.storageDevice freed
    (sortBySize c.cachedModels) vramInUse with ⟨ks, v⟩
  simp only
  exact lookupKey_map_cond

theorem offload_fields (c : ModelCache) (sizeNeeded : Nat) (vramInUse : Int)
    (freed : String → Int) :
    (c.offloadUnlockedModels sizeNeeded vramInUse freed).cacheStack = c.cacheStack ∧
    (c.offloadUnlockedModels sizeNeeded vramInUse freed).maxCacheSizeBytes = c.maxCacheSizeBytes ∧
    (c.offloadUnlockedModels sizeNeeded vramInUse freed).maxVramCacheBytes = c.maxVramCacheBytes ∧
    (c.offloadUnlockedModels sizeNeeded vramInUse freed).lazyOffloading = c.lazyOffloading ∧
    (c.offloadUnlockedModels sizeNeeded vramInUse freed).executionDevice = c.executionDevice ∧
    (c.offloadUnlockedModels sizeNeeded vramInUse freed).storageDevice = c.storageDevice :=
  ⟨rfl, rfl, rfl, rfl, rfl, rfl⟩

theorem offload_keysNodup (c : ModelCache) (sizeNeeded : Nat) (vramInUse : Int)
    (freed : String → Int) (hnd : keysNodup c.cachedModels) :
    keysNodup (c.offloadUnlockedModels sizeNeeded vramInUse freed).cachedModels := by
  unfold ModelCache.offloadUnlockedModels
  rcases hres : offloadScan c.maxVramCacheBytes c.storageDevice freed
    (sortBySize c.cachedModels) vramInUse with ⟨ks, v⟩
  simp only
  unfold keysNodup
  rw [keys_map_cond]
  exact hnd

theorem offloaded_key_unlocked (c : ModelCache) (vramInUse : Int) (freed : String → Int)
    (hnd : keysNodup c.cachedModels) {k : String} {r : CacheRecord}
    (hlk : lookupKey k c.cachedModels = some r)
    (hmem : k ∈ offloadedKeys c vramInUse freed) :
    r.locked = false ∧ r.loaded c.storageDevice = true := by
  rcases offloadScan_keys _ _ hmem with ⟨r2, hm, hl, hld⟩
  have hm2 : (k, r2) ∈ c.cachedModels := sortBySize_mem.1 hm
  have := mem_lookupKey hnd hm2
  rw [hlk] at this
  have hrr : r = r2 := by injection this
  rw [hrr]
  exact ⟨hl, hld⟩

theorem offload_locked_preserved (c : ModelCache) (sizeNeeded : Nat) (vramInUse : Int)
    (freed : String → Int) (hnd : keysNodup c.cachedModels) {k : String} {r : CacheRecord}
    (hlk : lookupKey k c.cachedModels = some r) (hl : r.locked = true) :
    lookupKey k (c.offloadUnlockedModels sizeNeeded vramInUse freed).cachedModels = some r := by
  rw [offload_lookup, hlk]
  by_cases hmem : k ∈ offloadedKeys c vramInUse freed
  · have hu := offloaded_key_unlocked c vramInUse freed hnd hlk hmem
    rw [hl] at hu
    cases hu.1
  · simp
    intro hx
    exact absurd hx hmem

theorem offload_noop (c : ModelCache) (sizeNeeded : Nat) (vramInUse : Int)
    (freed : String → Int) (h : vramInUse ≤ (c.maxVramCacheBytes : Int)) :
    c.offloadUnlockedModels sizeNeeded vramInUse freed = c := by
  unfold ModelCache.offloadUnlockedModels
  rw [offloadScan_stop h]
  show { c with cachedModels := c.cachedModels.map (fun p => p) } = c
  rw [List.map_id']

theorem offload_record_cases (c : ModelCache) (sizeNeeded : Nat) (vramInUse : Int)
    (freed : String → Int) (hnd : keysNodup c.cachedModels) {k : String} {r : CacheRecord}
    (hm : (k, r) ∈ c.cachedModels) :
    lookupKey k (c.offloadUnlockedModels sizeNeeded vramInUse freed).cachedModels = some r ∨
    (r.locked = false ∧ r.loaded c.storageDevice = true ∧
      lookupKey k (c.offloadUnlockedModels sizeNeeded vramInUse freed).cachedModels =
        some (demoteRecord c.storageDevice r)) := by
  have hlk := mem_lookupKey hnd hm
  rw [offload_lookup, hlk]
  by_cases hmem : k ∈ offloadedKeys c vramInUse freed
  · right
    have hu := offloaded_key_unlocked c vramInUse freed hnd hlk hmem
    refine ⟨hu.1, hu.2, ?_⟩
    simp
    intro hx
    exact absurd hmem hx
  · left
    simp
    intro hx
    exact absurd hx hmem

theorem makeCacheRoom_stack (c : ModelCache) (b : Nat) :
    (c.makeCacheRoom b).cacheStack =
      (makeRoomLoop c.maxCacheSizeBytes b c.cacheStack c.cachedModels
        ((c.cacheSize : Int)) 0).1 := rfl

theorem makeCacheRoom_models (c : ModelCache) (b : Nat) :
    (c.makeCacheRoom b).cachedModels =
      (makeRoomLoop c.maxCacheSizeBytes b c.cacheStack c.cachedModels
        ((c.cacheSize : Int)) 0).2.1 := rfl

theorem makeCacheRoom_stack_sublist (c : ModelCache) (b : Nat) :
    (c.makeCacheRoom b).cacheStack.Sublist c.cacheStack := by
  rw [makeCacheRoom_stack]
  exact mr_stack_sublist _ _ _ _ _ _

theorem stackInv_makeCacheRoom (c : ModelCache) (b : Nat) (hinv : stackInv c) :
    stackInv (c.makeCacheRoom b) := by
  obtain ⟨hst, hnd, hfwd, hbwd⟩ := hinv
  refine ⟨?_, ?_, ?_, ?_⟩
  · rw [makeCacheRoom_stack]
    exact List.Nodup.sublist (mr_stack_sublist _ _ _ _ _ _) hst
  · rw [makeCacheRoom_models]
    exact mr_keysNodup _ _ _ _ _ _ hnd
  · intro k hk
    rw [makeCacheRoom_stack] at hk
    rw [makeCacheRoom_models, mr_in_res_stack _ _ _ _ _ _ hst hk]
    have hks : k ∈ c.cacheStack := (mr_stack_sublist _ _ _ _ _ _).subset hk
    exact hfwd k hks
  · intro p hp
    rw [makeCacheRoom_models] at hp
    rw [makeCacheRoom_stack]
    have hnd2 := mr_keysNodup c.maxCacheSizeBytes b c.cacheStack c.cachedModels
      ((c.cacheSize : Int)) 0 hnd
    have hlk2 := mem_lookupKey hnd2 hp
    obtain ⟨k, r⟩ := p
    have hlk1 := mr_lookup_mono _ _ _ _ _ _ hnd hlk2
    have hks : k ∈ c.cacheStack := hbwd (k, r) (lookupKey_mem hlk1)
    by_cases hout : k ∈ (makeRoomLoop c.maxCacheSizeBytes b c.cacheStack c.cachedModels
      ((c.cacheSize : Int)) 0).1
    · exact hout
    · have := mr_evicted_none _ _ _ _ _ _ hst hnd hks hout
      rw [this] at hlk2
      cases hlk2

instance {e a : Type} [DecidableEq e] [DecidableEq a] : DecidableEq (Except e a) :=
  fun x y =>
  match x, y with
  | .error e1, .error e2 =>
    decidable_of_iff (e1 = e2) ⟨fun h => by rw [h], fun h => by injection h⟩
  | .ok a1, .ok a2 =>
    decidable_of_iff (a1 = a2) ⟨fun h => by rw [h], fun h => by injection h⟩
  | .error _, .ok _ => isFalse (fun h => by injection h)
  | .ok _, .error _ => isFalse (fun h => by injection h)

/-- A concrete one-entry cache: a locked non-onnx record of 200 bytes in a
100 byte budget, used to exhibit the eviction-condition precedence slip. -/
def cacheC1 : ModelCache :=
  { cachedModels := [("sd15", ⟨200, ⟨true, some 0⟩, 1, 2⟩)],
    cacheStack := ["sd15"],
    maxCacheSizeBytes := 100, maxVramCacheBytes := 50,
    lazyOffloading := true, executionDevice := 1, storageDevice := 0, stats := none }

/-- C1: the claim says a handle with lockCount greater than zero is never
removed by a _make_cache_room scan. The shipped code violates this: its
eviction test parses as a conditional expression whose branch for keys
without onnx is the truthy constant 2, so a locked non-onnx entry is
evicted anyway. Here the single entry is locked (lockCount 1), the key
has no onnx substring, the budget is exceeded, and the scan removes the
entry from both the dictionary and the LRU stack, while the refcount
condition described by the source comments would have kept it. -/
theorem claim_C1_locked_entry_evicted :
    (lookupKey "sd15" cacheC1.cachedModels).map CacheRecord.locked = some true ∧
    hasOnnx "sd15" = false ∧
    (cacheC1.makeCacheRoom 50).cachedModels = [] ∧
    (cacheC1.makeCacheRoom 50).cacheStack = [] ∧
    evictCondIntended "sd15" ⟨200, ⟨true, some 0⟩, 1, 2⟩ = false := by
  decide

/-- A concrete cache whose single record has a to method, resides on the
storage device, and is unlocked. -/
def cacheC2 : ModelCache :=
  { cachedModels := [("m", ⟨40, ⟨true, some 0⟩, 0, 2⟩)],
    cacheStack := ["m"],
    maxCacheSizeBytes := 100, maxVramCacheBytes := 50,
    lazyOffloading := true, executionDevice := 1, storageDevice := 0, stats := none }

/-- C2: the claim says an acquire with requireExecutionTier false takes no
lock and the matching release is a no-op beyond bookkeeping. The shipped
code violates this: enter with gpu_load false takes no lock (verified
by the first conjunct, state unchanged with lockCount still 0), but
exit unlocks unconditionally, which trips the unlock underflow
assertion of the code itself on the very state the enter produced. -/
theorem claim_C2_exit_unlocks_without_lock :
    ModelLocker.enter cacheC2 "m" false 40 0 (fun _ => 0) false =
      (cacheC2, Except.ok ⟨true, some 0⟩) ∧
    (ModelLocker.exit cacheC2 "m" 0 (fun _ => 0)).2 =
      Except.error CacheError.lockUnderflow := by
  decide

/-- C3: for a record with lockCount 0, lock followed by unlock returns the
record to its original state with lockCount 0, while unlock alone fails
with the underflow error (the assertion in _CacheRecord.unlock). -/
theorem claim_C3_lock_pairing (r : CacheRecord) (h : r.locks = 0) :
    (CacheRecord.lock r).unlock = Except.ok r ∧
    r.unlock = Except.error CacheError.lockUnderflow := by
  obtain ⟨sz, m, lk, rf⟩ := r
  simp only at h
  subst h
  constructor
  · simp [CacheRecord.lock, CacheRecord.unlock]
  · simp [CacheRecord.unlock]

/-- Witness for C3 at a concrete record. -/
theorem claim_C3_lock_pairing_witness :
    (⟨10, ⟨true, none⟩, 0, 2⟩ : CacheRecord).locks = 0 ∧
    ((CacheRecord.lock ⟨10, ⟨true, none⟩, 0, 2⟩).unlock =
      Except.ok (⟨10, ⟨true, none⟩, 0, 2⟩ : CacheRecord) ∧
    (⟨10, ⟨true, none⟩, 0, 2⟩ : CacheRecord).unlock =
      Except.error CacheError.lockUnderflow) :=
  ⟨rfl, claim_C3_lock_pairing ⟨10, ⟨true, none⟩, 0, 2⟩ rfl⟩

/-- C10: when the cached object has no to method, enter returns the object
as-is with no lock and no transfer whatever the gpu_load flag, and exit
returns without unlocking; the cache state is untouched by both. -/
theorem claim_C10_no_to_passthrough (c : ModelCache) (key : String) (r : CacheRecord)
    (g : Bool) (sz : Nat) (v1 v2 : Int) (f1 f2 : String → Int) (tr : Bool)
    (hl : lookupKey key c.cachedModels = some r) (hTo : r.model.hasTo = false) :
    ModelLocker.enter c key g sz v1 f1 tr = (c, Except.ok r.model) ∧
    ModelLocker.exit c key v2 f2 = (c, Except.ok ()) := by
  constructor
  · unfold ModelLocker.enter
    rw [hl]
    simp [hTo]
  · unfold ModelLocker.exit
    rw [hl]
    simp [hTo]

/-- Witness for C10 at a concrete cache holding one record without a to
method. -/
theorem claim_C10_no_to_passthrough_witness :
    lookupKey "d" [("d", (⟨7, ⟨false, none⟩, 0, 2⟩ : CacheRecord))] =
      some ⟨7, ⟨false, none⟩, 0, 2⟩ ∧
    (⟨7, ⟨false, none⟩, 0, 2⟩ : CacheRecord).model.hasTo = false ∧
    (ModelLocker.enter
        ⟨[("d", ⟨7, ⟨false, none⟩, 0, 2⟩)], ["d"], 100, 50, true, 1, 0, none⟩
        "d" true 7 0 (fun _ => 0) false =
      (⟨[("d", ⟨7, ⟨false, none⟩, 0, 2⟩)], ["d"], 100, 50, true, 1, 0, none⟩,
        Except.ok ⟨false, none⟩) ∧
    ModelLocker.exit
        ⟨[("d", ⟨7, ⟨false, none⟩, 0, 2⟩)], ["d"], 100, 50, true, 1, 0, none⟩
        "d" 0 (fun _ => 0) =
      (⟨[("d", ⟨7, ⟨false, none⟩, 0, 2⟩)], ["d"], 100, 50, true, 1, 0, none⟩,
        Except.ok ())) :=
  ⟨by decide, by decide,
    claim_C10_no_to_passthrough _ "d" ⟨7, ⟨false, none⟩, 0, 2⟩ true 7 0 0
      (fun _ => 0) (fun _ => 0) false (by decide) (by decide)⟩

theorem getModel_hit_parts (c : ModelCache) (key : String) (sz : Nat)
    (mo : Except CacheError MObj) (g : Bool) (refs : Nat) {entry : CacheRecord}
    (hhit : lookupKey key c.cachedModels = some entry) :
    (c.getModel true key sz mo g refs).2 = Except.ok ⟨key, g, entry.size⟩ ∧
    (c.getModel true key sz mo g refs).1.cachedModels = c.cachedModels ∧
    (c.getModel true key sz mo g refs).1.cacheStack = eraseStr key c.cacheStack ++ [key] := by
  unfold ModelCache.getModel
  rw [hhit]
  simp [updateStatsBlock]

theorem getModel_miss_error_parts (c : ModelCache) (key : String) (sz : Nat)
    (e : CacheError) (g : Bool) (refs : Nat)
    (hmiss : lookupKey key c.cachedModels = none) :
    (c.getModel true key sz (Except.error e) g refs).2 = Except.error e ∧
    (c.getModel true key sz (Except.error e) g refs).1.cachedModels =
      (makeRoomLoop c.maxCacheSizeBytes sz c.cacheStack c.cachedModels
        ((c.cacheSize : Int)) 0).2.1 ∧
    (c.getModel true key sz (Except.error e) g refs).1.cacheStack =
      (makeRoomLoop c.maxCacheSizeBytes sz c.cacheStack c.cachedModels
        ((c.cacheSize : Int)) 0).1 := by
  unfold ModelCache.getModel
  rw [hmiss]
  simp [ModelCache.makeCacheRoom, ModelCache.cacheSize]

theorem getModel_miss_ok_parts (c : ModelCache) (key : String) (sz : Nat)
    (model : MObj) (g : Bool) (refs : Nat)
    (hmiss : lookupKey key c.cachedModels = none) :
    (c.getModel true key sz (Except.ok model) g refs).2 = Except.ok ⟨key, g, sz⟩ ∧
    (c.getModel true key sz (Except.ok model) g refs).1.cachedModels =
      (makeRoomLoop c.maxCacheSizeBytes sz c.cacheStack c.cachedModels
        ((c.cacheSize : Int)) 0).2.1 ++ [(key, ⟨sz, model, 0, refs⟩)] ∧
    (c.getModel true key sz (Except.ok model) g refs).1.cacheStack =
      eraseStr key (makeRoomLoop c.maxCacheSizeBytes sz c.cacheStack c.cachedModels
        ((c.cacheSize : Int)) 0).1 ++ [key] := by
  unfold ModelCache.getModel
  rw [hmiss]
  simp [ModelCache.makeCacheRoom, ModelCache.cacheSize, updateStatsBlock]

instance (l : List (String × CacheRecord)) : Decidable (keysNodup l) := by
  unfold keysNodup
  infer_instance

instance (c : ModelCache) : Decidable (stackInv c) := by
  unfold stackInv
  exact instDecidableAnd

/-- A concrete cache holding one unlocked 200 byte entry under a 100 byte
budget, used to show that a failing load still leaves earlier evictions
behind. -/
def cacheC8 : ModelCache :=
  { cachedModels := [("b", ⟨200, ⟨true, some 0⟩, 0, 2⟩)],
    cacheStack := ["b"],
    maxCacheSizeBytes := 100, maxVramCacheBytes := 50,
    lazyOffloading := true, executionDevice := 1, storageDevice := 0, stats := none }

/-- C8 counterexample: the claim says that when the provider load raises
during a miss the cache state is unchanged. On this input the miss
first runs _make_cache_room, which evicts the resident entry b, and
only then the load raises: the error surfaces but the state differs
from the initial one, so the claim as stated is false. -/
theorem claim_C8_counterexample :
    (cacheC8.getModel true "a" 50 (Except.error CacheError.loadError) true 2).2 =
      Except.error CacheError.loadError ∧
    (cacheC8.getModel true "a" 50 (Except.error CacheError.loadError) true 2).1 ≠
      cacheC8 := by
  decide

/-- C8 amended: when the provider load raises during a miss the error
surfaces unchanged and no partial handle for the requested key is left
in the dictionary or the LRU stack; evictions already performed by the
_make_cache_room call before the failure persist. -/
theorem claim_C8_no_partial_handle (c : ModelCache) (key : String) (sz : Nat)
    (e : CacheError) (g : Bool) (refs : Nat)
    (hinv : stackInv c) (hmiss : lookupKey key c.cachedModels = none) :
    (c.getModel true key sz (Except.error e) g refs).2 = Except.error e ∧
    lookupKey key (c.getModel true key sz (Except.error e) g refs).1.cachedModels = none ∧
    key ∉ (c.getModel true key sz (Except.error e) g refs).1.cacheStack := by
  obtain ⟨hp2, hpm, hps⟩ := getModel_miss_error_parts c key sz e g refs hmiss
  obtain ⟨hst, hnd, hfwd, hbwd⟩ := hinv
  refine ⟨hp2, ?_, ?_⟩
  · rw [hpm]
    exact mr_lookup_none _ _ hnd hmiss
  · rw [hps]
    intro hk
    have hks : key ∈ c.cacheStack := (mr_stack_sublist _ _ _ _ _ _).subset hk
    have := hfwd key hks
    rw [hmiss] at this
    cases this

/-- Witness for the amended C8 theorem at a concrete cache. -/
theorem claim_C8_no_partial_handle_witness :
    stackInv cacheC8 ∧
    lookupKey "a" cacheC8.cachedModels = none ∧
    ((cacheC8.getModel true "a" 50 (Except.error CacheError.loadError) true 2).2 =
      Except.error CacheError.loadError ∧
    lookupKey "a"
      (cacheC8.getModel true "a" 50 (Except.error CacheError.loadError) true 2).1.cachedModels
        = none ∧
    "a" ∉ (cacheC8.getModel true "a" 50
      (Except.error CacheError.loadError) true 2).1.cacheStack) :=
  ⟨by decide, by decide,
    claim_C8_no_partial_handle cacheC8 "a" 50 CacheError.loadError true 2
      (by decide) (by decide)⟩

/-- C4: after _make_cache_room returns (it is a total function of the
state, so it never raises to its caller even when the budget cannot be
met), either the remaining cached total plus the needed bytes fits the
budget, or every entry still cached failed the eviction condition when
it was scanned. -/
theorem claim_C4_make_room_budget_or_exhausted (c : ModelCache) (bytes : Nat)
    (hnd : keysNodup c.cachedModels)
    (hbwd : ∀ p ∈ c.cachedModels, p.1 ∈ c.cacheStack) :
    ((c.makeCacheRoom bytes).cacheSize + bytes ≤ c.maxCacheSizeBytes) ∨
    (∀ p ∈ (c.makeCacheRoom bytes).cachedModels, evictCond p.1 p.2 = false) := by
  rcases mr_budget c.maxCacheSizeBytes bytes c.cacheStack c.cachedModels
    ((c.cacheSize : Int)) 0 hnd with hL | hR
  · left
    have hc := mr_cur_eq c.maxCacheSizeBytes bytes c.cacheStack c.cachedModels
      ((c.cacheSize : Int)) 0 rfl
    rw [hc] at hL
    have hsz : (c.makeCacheRoom bytes).cacheSize =
        sizeSum (makeRoomLoop c.maxCacheSizeBytes bytes c.cacheStack c.cachedModels
          ((c.cacheSize : Int)) 0).2.1 := by
      rw [ModelCache.cacheSize, makeCacheRoom_models]
    rw [hsz]
    omega
  · right
    intro p hp
    rw [makeCacheRoom_models] at hp
    have hnd2 := mr_keysNodup c.maxCacheSizeBytes bytes c.cacheStack c.cachedModels
      ((c.cacheSize : Int)) 0 hnd
    have hlk := mem_lookupKey hnd2 hp
    have hl1 := mr_lookup_mono _ _ _ _ _ _ hnd hlk
    have hks : p.1 ∈ c.cacheStack := hbwd (p.1, p.2) (lookupKey_mem hl1)
    exact hR p.1 p.2 hks hlk

/-- Witness for C4 at a concrete cache over budget. -/
theorem claim_C4_witness :
    keysNodup cacheC1.cachedModels ∧
    (∀ p ∈ cacheC1.cachedModels, p.1 ∈ cacheC1.cacheStack) ∧
    (((cacheC1.makeCacheRoom 50).cacheSize + 50 ≤ cacheC1.maxCacheSizeBytes) ∨
      (∀ p ∈ (cacheC1.makeCacheRoom 50).cachedModels, evictCond p.1 p.2 = false)) :=
  ⟨by decide, by decide,
    claim_C4_make_room_budget_or_exhausted cacheC1 50 (by decide) (by decide)⟩

theorem updateRecord_stack (c : ModelCache) (k : String) (f : CacheRecord → CacheRecord) :
    (c.updateRecord k f).cacheStack = c.cacheStack := rfl

theorem updateRecord_lazy (c : ModelCache) (k : String) (f : CacheRecord → CacheRecord) :
    (c.updateRecord k f).lazyOffloading = c.lazyOffloading := rfl

theorem updateRecord_exec (c : ModelCache) (k : String) (f : CacheRecord → CacheRecord) :
    (c.updateRecord k f).executionDevice = c.executionDevice := rfl

theorem updateRecord_storage (c : ModelCache) (k : String) (f : CacheRecord → CacheRecord) :
    (c.updateRecord k f).storageDevice = c.storageDevice := rfl

theorem updateRecord_models (c : ModelCache) (k : String) (f : CacheRecord → CacheRecord) :
    (c.updateRecord k f).cachedModels = updateKey k f c.cachedModels := rfl

theorem offload_exec (c : ModelCache) (sz : Nat) (v : Int) (f : String → Int) :
    (c.offloadUnlockedModels sz v f).executionDevice = c.executionDevice := rfl

theorem offload_lazy (c : ModelCache) (sz : Nat) (v : Int) (f : String → Int) :
    (c.offloadUnlockedModels sz v f).lazyOffloading = c.lazyOffloading := rfl

theorem enter_already_loaded (c : ModelCache) (key : String) (r : CacheRecord)
    (sz : Nat) (vram : Int) (freed : String → Int) (tr : Bool)
    (hnd : keysNodup c.cachedModels)
    (hl : lookupKey key c.cachedModels = some r)
    (hTo : r.model.hasTo = true)
    (hlk0 : r.locks ≥ 0)
    (hdev : r.model.device = some c.executionDevice) :
    (ModelLocker.enter c key true sz vram freed tr).2 = Except.ok r.model ∧
    lookupKey key (ModelLocker.enter c key true sz vram freed tr).1.cachedModels =
      some (CacheRecord.lock r) ∧
    keysNodup (ModelLocker.enter c key true sz vram freed tr).1.cachedModels ∧
    (ModelLocker.enter c key true sz vram freed tr).1.executionDevice = c.executionDevice := by
  have hlock : CacheRecord.locked (CacheRecord.lock r) = true := by
    simp only [CacheRecord.locked, CacheRecord.lock]
    simp only [decide_eq_true_eq]
    omega
  have hc1lk : lookupKey key (c.updateRecord key CacheRecord.lock).cachedModels
      = some (CacheRecord.lock r) := by
    rw [updateRecord_models, lookupKey_updateKey_self, hl]
    rfl
  have hc1nd : keysNodup (c.updateRecord key CacheRecord.lock).cachedModels := by
    rw [updateRecord_models]
    exact keysNodup_updateKey hnd
  have hdev2 : (CacheRecord.lock r).model.device = some c.executionDevice := hdev
  unfold ModelLocker.enter
  rw [hl]
  simp only [hTo, Bool.not_true, Bool.false_eq_true, if_false, if_true]
  simp only [updateRecord_lazy, apply_ite ModelCache.executionDevice, offload_exec,
    updateRecord_exec, ite_self]
  generalize hG : (if c.lazyOffloading = true
      then (c.updateRecord key CacheRecord.lock).offloadUnlockedModels sz vram freed
      else c.updateRecord key CacheRecord.lock) = c2
  have hc2lk : lookupKey key c2.cachedModels = some (CacheRecord.lock r) := by
    rw [← hG]
    by_cases hlz : c.lazyOffloading = true
    · rw [if_pos hlz]
      exact offload_locked_preserved _ _ _ _ hc1nd hc1lk hlock
    · rw [if_neg hlz]
      exact hc1lk
  have hc2nd : keysNodup c2.cachedModels := by
    rw [← hG]
    by_cases hlz : c.lazyOffloading = true
    · rw [if_pos hlz]
      exact offload_keysNodup _ _ _ _ hc1nd
    · rw [if_neg hlz]
      exact hc1nd
  have hc2ex : c2.executionDevice = c.executionDevice := by
    rw [← hG]
    by_cases hlz : c.lazyOffloading = true
    · rw [if_pos hlz]
      rfl
    · rw [if_neg hlz]
      rfl
  simp only [hc2lk, hdev2]
  rw [if_neg (by intro h; exact h rfl)]
  exact ⟨rfl, hc2lk, hc2nd, hc2ex⟩


theorem enter_transfer_success (c : ModelCache) (key : String) (r : CacheRecord)
    (sz : Nat) (vram : Int) (freed : String → Int) (d : Nat)
    (hnd : keysNodup c.cachedModels)
    (hl : lookupKey key c.cachedModels = some r)
    (hTo : r.model.hasTo = true)
    (hlk0 : r.locks ≥ 0)
    (hdev : r.model.device = some d)
    (hne : d ≠ c.executionDevice) :
    (ModelLocker.enter c key true sz vram freed false).2 =
      Except.ok { r.model with device := some c.executionDevice } ∧
    lookupKey key (ModelLocker.enter c key true sz vram freed false).1.cachedModels =
      some { CacheRecord.lock r with
        model := { r.model with device := some c.executionDevice } } ∧
    keysNodup (ModelLocker.enter c key true sz vram freed false).1.cachedModels ∧
    (ModelLocker.enter c key true sz vram freed false).1.executionDevice =
      c.executionDevice := by
  have hlock : CacheRecord.locked (CacheRecord.lock r) = true := by
    simp only [CacheRecord.locked, CacheRecord.lock]
    simp only [decide_eq_true_eq]
    omega
  have hc1lk : lookupKey key (c.updateRecord key CacheRecord.lock).cachedModels
      = some (CacheRecord.lock r) := by
    rw [updateRecord_models, lookupKey_updateKey_self, hl]
    rfl
  have hc1nd : keysNodup (c.updateRecord key CacheRecord.lock).cachedModels := by
    rw [updateRecord_models]
    exact keysNodup_updateKey hnd
  have hdev2 : (CacheRecord.lock r).model.device = some d := hdev
  unfold ModelLocker.enter
  rw [hl]
  simp only [hTo, Bool.not_true, Bool.false_eq_true, if_false, if_true]
  simp only [updateRecord_lazy, apply_ite ModelCache.executionDevice, offload_exec,
    updateRecord_exec, ite_self]
  generalize hG : (if c.lazyOffloading = true
      then (c.updateRecord key CacheRecord.lock).offloadUnlockedModels sz vram freed
      else c.updateRecord key CacheRecord.lock) = c2
  have hc2lk : lookupKey key c2.cachedModels = some (CacheRecord.lock r) := by
    rw [← hG]
    by_cases hlz : c.lazyOffloading = true
    · rw [if_pos hlz]
      exact offload_locked_preserved _ _ _ _ hc1nd hc1lk hlock
    · rw [if_neg hlz]
      exact hc1lk
  have hc2nd : keysNodup c2.cachedModels := by
    rw [← hG]
    by_cases hlz : c.lazyOffloading = true
    · rw [if_pos hlz]
      exact offload_keysNodup _ _ _ _ hc1nd
    · rw [if_neg hlz]
      exact hc1nd
  have hc2ex : c2.executionDevice = c.executionDevice := by
    rw [← hG]
    by_cases hlz : c.lazyOffloading = true
    · rw [if_pos hlz]
      rfl
    · rw [if_neg hlz]
      rfl
  simp only [hc2lk, hdev2]
  rw [if_pos hne]
  have hc3lk : lookupKey key (c2.updateRecord key
      (fun x => { x with model := { x.model with device := some c.executionDevice } })).cachedModels
      = some { CacheRecord.lock r with
          model := { r.model with device := some c.executionDevice } } := by
    rw [updateRecord_models, lookupKey_updateKey_self, hc2lk]
    rfl
  simp only [hc3lk]
  refine ⟨?_, ?_, ?_, ?_⟩
  · rw [hTo]
  · rw [hTo]
  · rw [updateRecord_models]
    exact keysNodup_updateKey hc2nd
  · exact hc2ex


theorem enter_device_missing (c : ModelCache) (key : String) (r : CacheRecord)
    (sz : Nat) (vram : Int) (freed : String → Int) (tr : Bool)
    (hnd : keysNodup c.cachedModels)
    (hl : lookupKey key c.cachedModels = some r)
    (hTo : r.model.hasTo = true)
    (hlk0 : r.locks ≥ 0)
    (hdev : r.model.device = none) :
    (ModelLocker.enter c key true sz vram freed tr).2 =
      Except.error CacheError.attributeError := by
  have hlock : CacheRecord.locked (CacheRecord.lock r) = true := by
    simp only [CacheRecord.locked, CacheRecord.lock]
    simp only [decide_eq_true_eq]
    omega
  have hc1lk : lookupKey key (c.updateRecord key CacheRecord.lock).cachedModels
      = some (CacheRecord.lock r) := by
    rw [updateRecord_models, lookupKey_updateKey_self, hl]
    rfl
  have hc1nd : keysNodup (c.updateRecord key CacheRecord.lock).cachedModels := by
    rw [updateRecord_models]
    exact keysNodup_updateKey hnd
  have hdev2 : (CacheRecord.lock r).model.device = none := hdev
  have hunlock : (CacheRecord.lock r).unlock = Except.ok r := by
    obtain ⟨sz0, m0, lk0, rf0⟩ := r
    simp only at hlk0
    have hnn : ¬(lk0 + 1 - 1 < 0) := by omega
    simp [CacheRecord.lock, CacheRecord.unlock, hnn]
    omega
  unfold ModelLocker.enter
  rw [hl]
  simp only [hTo, Bool.not_true, Bool.false_eq_true, if_false, if_true]
  simp only [updateRecord_lazy, apply_ite ModelCache.executionDevice, offload_exec,
    updateRecord_exec, ite_self]
  generalize hG : (if c.lazyOffloading = true
      then (c.updateRecord key CacheRecord.lock).offloadUnlockedModels sz vram freed
      else c.updateRecord key CacheRecord.lock) = c2
  have hc2lk : lookupKey key c2.cachedModels = some (CacheRecord.lock r) := by
    rw [← hG]
    by_cases hlz : c.lazyOffloading = true
    · rw [if_pos hlz]
      exact offload_locked_preserved _ _ _ _ hc1nd hc1lk hlock
    · rw [if_neg hlz]
      exact hc1lk
  simp only [hc2lk, hdev2, hunlock]

/-- C6: when acquisition with gpu_load true has taken the lock and the
tier transfer into the execution device raises, the entry is unlocked
before the error propagates: the result is the transfer error and the
lock count of the entry equals its value before the acquisition. -/
theorem claim_C6_failed_promotion_unlocks (c : ModelCache) (key : String) (r : CacheRecord)
    (sz : Nat) (vram : Int) (freed : String → Int) (d : Nat)
    (hnd : keysNodup c.cachedModels)
    (hl : lookupKey key c.cachedModels = some r)
    (hTo : r.model.hasTo = true)
    (hlk0 : r.locks ≥ 0)
    (hdev : r.model.device = some d)
    (hne : d ≠ c.executionDevice) :
    (ModelLocker.enter c key true sz vram freed true).2 =
      Except.error CacheError.transferError ∧
    (lookupKey key (ModelLocker.enter c key true sz vram freed true).1.cachedModels).map
      CacheRecord.locks = some r.locks := by
  have hlock : CacheRecord.locked (CacheRecord.lock r) = true := by
    simp only [CacheRecord.locked, CacheRecord.lock]
    simp only [decide_eq_true_eq]
    omega
  have hc1lk : lookupKey key (c.updateRecord key CacheRecord.lock).cachedModels
      = some (CacheRecord.lock r) := by
    rw [updateRecord_models, lookupKey_updateKey_self, hl]
    rfl
  have hc1nd : keysNodup (c.updateRecord key CacheRecord.lock).cachedModels := by
    rw [updateRecord_models]
    exact keysNodup_updateKey hnd
  have hdev2 : (CacheRecord.lock r).model.device = some d := hdev
  have hunlock : (CacheRecord.lock r).unlock = Except.ok r := by
    obtain ⟨sz0, m0, lk0, rf0⟩ := r
    simp only at hlk0
    have hnn : ¬(lk0 + 1 - 1 < 0) := by omega
    simp [CacheRecord.lock, CacheRecord.unlock, hnn]
    omega
  unfold ModelLocker.enter
  rw [hl]
  simp only [hTo, Bool.not_true, Bool.false_eq_true, if_false, if_true]
  simp only [updateRecord_lazy, apply_ite ModelCache.executionDevice, offload_exec,
    updateRecord_exec, ite_self]
  generalize hG : (if c.lazyOffloading = true
      then (c.updateRecord key CacheRecord.lock).offloadUnlockedModels sz vram freed
      else c.updateRecord key CacheRecord.lock) = c2
  have hc2lk : lookupKey key c2.cachedModels = some (CacheRecord.lock r) := by
    rw [← hG]
    by_cases hlz : c.lazyOffloading = true
    · rw [if_pos hlz]
      exact offload_locked_preserved _ _ _ _ hc1nd hc1lk hlock
    · rw [if_neg hlz]
      exact hc1lk
  simp only [hc2lk, hdev2]
  rw [if_pos hne]
  simp only [hunlock]
  constructor
  · trivial
  · rw [updateRecord_models, lookupKey_updateKey_self, hc2lk]
    rfl

/-- C9: promotion is idempotent on residency. After a successful enter
with gpu_load true the record of the key reports the execution device;
a second enter on the resulting state returns the same model object and
leaves the residency at the execution device, performing no transfer:
the conclusion holds for an arbitrary toRaises flag of the second call,
so the transfer primitive is never reached by it. -/
theorem claim_C9_promote_idempotent (c : ModelCache) (key : String) (r : CacheRecord)
    (sz1 sz2 : Nat) (v1 v2 : Int) (f1 f2 : String → Int) (tr2 : Bool) (m : MObj)
    (hnd : keysNodup c.cachedModels)
    (hl : lookupKey key c.cachedModels = some r)
    (hTo : r.model.hasTo = true)
    (hlk0 : r.locks ≥ 0)
    (hfirst : (ModelLocker.enter c key true sz1 v1 f1 false).2 = Except.ok m) :
    (lookupKey key (ModelLocker.enter c key true sz1 v1 f1 false).1.cachedModels).map
        (fun x => x.model.device) = some (some c.executionDevice) ∧
    (ModelLocker.enter (ModelLocker.enter c key true sz1 v1 f1 false).1
        key true sz2 v2 f2 tr2).2 = Except.ok m ∧
    (lookupKey key (ModelLocker.enter (ModelLocker.enter c key true sz1 v1 f1 false).1
        key true sz2 v2 f2 tr2).1.cachedModels).map
        (fun x => x.model.device) = some (some c.executionDevice) := by
  rcases hdev0 : r.model.device with _ | d
  · have hmiss := enter_device_missing c key r sz1 v1 f1 false hnd hl hTo hlk0 hdev0
    rw [hmiss] at hfirst
    cases hfirst
  · by_cases hd : d = c.executionDevice
    · subst hd
      obtain ⟨h2, hlk1, hnd1, hex1⟩ :=
        enter_already_loaded c key r sz1 v1 f1 false hnd hl hTo hlk0 hdev0
      rw [h2] at hfirst
      have hm : m = r.model := by
        injection hfirst with h
        exact h.symm
      have hTo1 : (CacheRecord.lock r).model.hasTo = true := hTo
      have hlk01 : (CacheRecord.lock r).locks ≥ 0 := by
        simp only [CacheRecord.lock]
        omega
      have hdev1 : (CacheRecord.lock r).model.device =
          some ((ModelLocker.enter c key true sz1 v1 f1 false).1).executionDevice := by
        rw [hex1]
        exact hdev0
      obtain ⟨g2, glk, gnd, gex⟩ := enter_already_loaded _ key (CacheRecord.lock r)
        sz2 v2 f2 tr2 hnd1 hlk1 hTo1 hlk01 hdev1
      refine ⟨?_, ?_, ?_⟩
      · rw [hlk1]
        show some r.model.device = some (some c.executionDevice)
        rw [hdev0]
      · rw [g2, hm]
        rfl
      · rw [glk]
        show some r.model.device = some (some c.executionDevice)
        rw [hdev0]
    · obtain ⟨h2, hlk1, hnd1, hex1⟩ :=
        enter_transfer_success c key r sz1 v1 f1 d hnd hl hTo hlk0 hdev0 hd
      rw [h2] at hfirst
      have hm : m = { r.model with device := some c.executionDevice } := by
        injection hfirst with h
        exact h.symm
      have hTo1 : ({ CacheRecord.lock r with
          model := { r.model with device := some c.executionDevice } }).model.hasTo = true := hTo
      have hlk01 : ({ CacheRecord.lock r with
          model := { r.model with device := some c.executionDevice } }).locks ≥ 0 := by
        simp only [CacheRecord.lock]
        omega
      have hdev1 : ({ CacheRecord.lock r with
          model := { r.model with device := some c.executionDevice } }).model.device =
          some ((ModelLocker.enter c key true sz1 v1 f1 false).1).executionDevice := by
        rw [hex1]
      obtain ⟨g2, glk, gnd, gex⟩ := enter_already_loaded _ key
        { CacheRecord.lock r with model := { r.model with device := some c.executionDevice } }
        sz2 v2 f2 tr2 hnd1 hlk1 hTo1 hlk01 hdev1
      refine ⟨?_, ?_, ?_⟩
      · rw [hlk1]
        rfl
      · rw [g2, hm]
      · rw [glk]
        rfl

/-- A concrete cache with one storage-resident, unlocked, transferable
record, used by the locker witnesses. -/
def cacheLk : ModelCache :=
  { cachedModels := [("m", ⟨40, ⟨true, some 0⟩, 0, 2⟩)],
    cacheStack := ["m"],
    maxCacheSizeBytes := 100, maxVramCacheBytes := 50,
    lazyOffloading := true, executionDevice := 1, storageDevice := 0, stats := none }

/-- Witness for C6 at the concrete cache: the transfer raises, the error
is the transfer error and the lock count is back at 0. -/
theorem claim_C6_witness :
    keysNodup cacheLk.cachedModels ∧
    lookupKey "m" cacheLk.cachedModels = some ⟨40, ⟨true, some 0⟩, 0, 2⟩ ∧
    (⟨40, ⟨true, some 0⟩, 0, 2⟩ : CacheRecord).model.hasTo = true ∧
    (⟨40, ⟨true, some 0⟩, 0, 2⟩ : CacheRecord).locks ≥ 0 ∧
    (⟨40, ⟨true, some 0⟩, 0, 2⟩ : CacheRecord).model.device = some 0 ∧
    (0 : Nat) ≠ cacheLk.executionDevice ∧
    ((ModelLocker.enter cacheLk "m" true 40 100 (fun _ => 0) true).2 =
      Except.error CacheError.transferError ∧
    (lookupKey "m"
      (ModelLocker.enter cacheLk "m" true 40 100 (fun _ => 0) true).1.cachedModels).map
        CacheRecord.locks = some (⟨40, ⟨true, some 0⟩, 0, 2⟩ : CacheRecord).locks) :=
  ⟨by decide, by decide, by decide, by decide, by decide, by decide,
    claim_C6_failed_promotion_unlocks cacheLk "m" ⟨40, ⟨true, some 0⟩, 0, 2⟩ 40 100
      (fun _ => 0) 0 (by decide) (by decide) (by decide) (by decide) (by decide) (by decide)⟩

/-- Witness for C9 at the concrete cache: the first enter promotes the
record to the execution device; the second enter is a residency no-op
even though its transfer oracle would raise. -/
theorem claim_C9_witness :
    keysNodup cacheLk.cachedModels ∧
    lookupKey "m" cacheLk.cachedModels = some ⟨40, ⟨true, some 0⟩, 0, 2⟩ ∧
    (⟨40, ⟨true, some 0⟩, 0, 2⟩ : CacheRecord).model.hasTo = true ∧
    (⟨40, ⟨true, some 0⟩, 0, 2⟩ : CacheRecord).locks ≥ 0 ∧
    (ModelLocker.enter cacheLk "m" true 40 100 (fun _ => 0) false).2 =
      Except.ok ⟨true, some 1⟩ ∧
    ((lookupKey "m"
        (ModelLocker.enter cacheLk "m" true 40 100 (fun _ => 0) false).1.cachedModels).map
        (fun x => x.model.device) = some (some cacheLk.executionDevice) ∧
    (ModelLocker.enter (ModelLocker.enter cacheLk "m" true 40 100 (fun _ => 0) false).1
        "m" true 40 100 (fun _ => 0) true).2 = Except.ok ⟨true, some 1⟩ ∧
    (lookupKey "m"
        (ModelLocker.enter (ModelLocker.enter cacheLk "m" true 40 100 (fun _ => 0) false).1
          "m" true 40 100 (fun _ => 0) true).1.cachedModels).map
        (fun x => x.model.device) = some (some cacheLk.executionDevice)) :=
  ⟨by decide, by decide, by decide, by decide, by decide,
    claim_C9_promote_idempotent cacheLk "m" ⟨40, ⟨true, some 0⟩, 0, 2⟩ 40 40 100 100
      (fun _ => 0) (fun _ => 0) true ⟨true, some 1⟩
      (by decide) (by decide) (by decide) (by decide) (by decide)⟩

/-- C7: properties of _offload_unlocked_models. The scan list is the
cached items sorted by ascending size; the scan breaks as soon as the
measured usage is at or below the reserve (stated for every list and
usage figure, covering every intermediate step of the scan, and in
particular the whole call is the identity when usage already meets the
reserve); locked entries keep their record untouched whatever their
size; and every entry is either untouched or was unlocked and
execution-resident and has been moved to the storage device. -/
theorem claim_C7_offload_order_and_skip (c : ModelCache) (sz : Nat) (vram : Int)
    (freed : String → Int) (hnd : keysNodup c.cachedModels) :
    List.Pairwise (fun a b => a.2.size ≤ b.2.size) (sortBySize c.cachedModels) ∧
    (∀ (l : List (String × CacheRecord)) (v : Int), v ≤ (c.maxVramCacheBytes : Int) →
      offloadScan c.maxVramCacheBytes c.storageDevice freed l v = ([], v)) ∧
    (vram ≤ (c.maxVramCacheBytes : Int) → c.offloadUnlockedModels sz vram freed = c) ∧
    (∀ k r, (k, r) ∈ c.cachedModels → r.locked = true →
      lookupKey k (c.offloadUnlockedModels sz vram freed).cachedModels = some r) ∧
    (∀ k r, (k, r) ∈ c.cachedModels →
      lookupKey k (c.offloadUnlockedModels sz vram freed).cachedModels = some r ∨
      (r.locked = false ∧ r.loaded c.storageDevice = true ∧
        lookupKey k (c.offloadUnlockedModels sz vram freed).cachedModels =
          some (demoteRecord c.storageDevice r))) := by
  refine ⟨sortBySize_pairwise, ?_, ?_, ?_, ?_⟩
  · intro l v hv
    exact offloadScan_stop hv
  · intro hv
    exact offload_noop c sz vram freed hv
  · intro k r hm hl
    exact offload_locked_preserved c sz vram freed hnd (mem_lookupKey hnd hm) hl
  · intro k r hm
    exact offload_record_cases c sz vram freed hnd hm

/-- A concrete cache with two unlocked loaded entries and one locked
loaded entry, over the VRAM reserve. -/
def cacheC7 : ModelCache :=
  { cachedModels := [("x", ⟨60, ⟨true, some 1⟩, 0, 2⟩), ("y", ⟨30, ⟨true, some 1⟩, 0, 2⟩),
      ("z", ⟨10, ⟨true, some 1⟩, 1, 2⟩)],
    cacheStack := ["x", "y", "z"],
    maxCacheSizeBytes := 1000, maxVramCacheBytes := 50,
    lazyOffloading := true, executionDevice := 1, storageDevice := 0, stats := none }

/-- Witness for C7 at the concrete cache. -/
theorem claim_C7_witness :
    keysNodup cacheC7.cachedModels ∧
    (List.Pairwise (fun a b => a.2.size ≤ b.2.size) (sortBySize cacheC7.cachedModels) ∧
    (∀ (l : List (String × CacheRecord)) (v : Int), v ≤ (cacheC7.maxVramCacheBytes : Int) →
      offloadScan cacheC7.maxVramCacheBytes cacheC7.storageDevice
        (fun _ => -30) l v = ([], v)) ∧
    ((100 : Int) ≤ (cacheC7.maxVramCacheBytes : Int) →
      cacheC7.offloadUnlockedModels 0 100 (fun _ => -30) = cacheC7) ∧
    (∀ k r, (k, r) ∈ cacheC7.cachedModels → r.locked = true →
      lookupKey k (cacheC7.offloadUnlockedModels 0 100 (fun _ => -30)).cachedModels = some r) ∧
    (∀ k r, (k, r) ∈ cacheC7.cachedModels →
      lookupKey k (cacheC7.offloadUnlockedModels 0 100 (fun _ => -30)).cachedModels = some r ∨
      (r.locked = false ∧ r.loaded cacheC7.storageDevice = true ∧
        lookupKey k (cacheC7.offloadUnlockedModels 0 100 (fun _ => -30)).cachedModels =
          some (demoteRecord cacheC7.storageDevice r)))) :=
  ⟨by decide,
    claim_C7_offload_order_and_skip cacheC7 0 100 (fun _ => -30) (by decide)⟩

/-- C5: three facts about LRU maintenance. First, every successful
get_model call (hit or miss) preserves the registry invariant (the LRU
stack has no duplicates and holds exactly the dictionary keys) and
leaves the accessed key at the most recently used end of the stack.
Second, the stack surviving a _make_cache_room scan is a sublist of the
original, so the scan preserves relative order. Third, the scan starts
at the least recently used end: when the budget is exceeded and the
head of the stack satisfies the eviction condition, that head is
evicted. -/
theorem claim_C5_lru_invariant :
    (∀ (c : ModelCache) (pe : Bool) (key : String) (sz : Nat)
        (load : Except CacheError MObj) (g : Bool) (refs : Nat) (L : LockerInfo),
      stackInv c → (c.getModel pe key sz load g refs).2 = Except.ok L →
      stackInv (c.getModel pe key sz load g refs).1 ∧
      (c.getModel pe key sz load g refs).1.cacheStack.getLast? = some key) ∧
    (∀ (c : ModelCache) (b : Nat), (c.makeCacheRoom b).cacheStack.Sublist c.cacheStack) ∧
    (∀ (c : ModelCache) (b : Nat) (k : String) (rest : List String) (r : CacheRecord),
      c.cacheStack = k :: rest → c.cacheStack.Nodup → keysNodup c.cachedModels →
      lookupKey k c.cachedModels = some r → evictCond k r = true →
      ((c.cacheSize : Int) + (b : Int) > (c.maxCacheSizeBytes : Int)) →
      k ∉ (c.makeCacheRoom b).cacheStack) := by
  refine ⟨?_, ?_, ?_⟩
  · intro c pe key sz load g refs L hinv hok
    cases pe with
    | false =>
      unfold ModelCache.getModel at hok
      simp at hok
    | true =>
      cases hl : lookupKey key c.cachedModels with
      | some entry =>
        obtain ⟨hp2, hpm, hps⟩ := getModel_hit_parts c key sz load g refs hl
        obtain ⟨hst, hnd, hfwd, hbwd⟩ := hinv
        constructor
        · refine ⟨?_, ?_, ?_, ?_⟩
          · rw [hps]
            simp [List.nodup_append, nodup_eraseStr hst, not_mem_eraseStr_self hst]
          · rw [hpm]
            exact hnd
          · intro k hk
            rw [hps] at hk
            rw [hpm]
            rcases List.mem_append.1 hk with h1 | h2
            · exact hfwd k (mem_eraseStr h1)
            · have hkk : k = key := by simpa using h2
              subst hkk
              rw [hl]
              rfl
          · intro p hp
            rw [hpm] at hp
            rw [hps]
            by_cases hk : p.1 = key
            · simp [hk]
            · have hmem := hbwd p hp
              have h2 := mem_eraseStr_of_ne hk hmem
              simp [List.mem_append, h2]
        · rw [hps]
          simp
      | none =>
        cases load with
        | error e =>
          obtain ⟨hp2, _, _⟩ := getModel_miss_error_parts c key sz e g refs hl
          rw [hp2] at hok
          cases hok
        | ok model =>
          obtain ⟨hp2, hpm, hps⟩ := getModel_miss_ok_parts c key sz model g refs hl
          have hnd0 := hinv.2.1
          obtain ⟨hst2, hnd2, hfwd2, hbwd2⟩ := stackInv_makeCacheRoom c sz hinv
          rw [makeCacheRoom_stack] at hst2
          rw [makeCacheRoom_models] at hnd2
          have hlk2 : lookupKey key (makeRoomLoop c.maxCacheSizeBytes sz c.cacheStack
              c.cachedModels ((c.cacheSize : Int)) 0).2.1 = none :=
            mr_lookup_none _ _ hnd0 hl
          have hknotin : key ∉ (makeRoomLoop c.maxCacheSizeBytes sz c.cacheStack
              c.cachedModels ((c.cacheSize : Int)) 0).1 := by
            intro hk
            have hsome := hfwd2 key (by rw [makeCacheRoom_stack]; exact hk)
            rw [makeCacheRoom_models, hlk2] at hsome
            cases hsome
          have hero : eraseStr key (makeRoomLoop c.maxCacheSizeBytes sz c.cacheStack
              c.cachedModels ((c.cacheSize : Int)) 0).1 =
              (makeRoomLoop c.maxCacheSizeBytes sz c.cacheStack
                c.cachedModels ((c.cacheSize : Int)) 0).1 :=
            eraseStr_of_not_mem hknotin
          constructor
          · refine ⟨?_, ?_, ?_, ?_⟩
            · rw [hps, hero]
              simp [List.nodup_append, hst2, hknotin]
            · rw [hpm]
              unfold keysNodup
              rw [List.map_append]
              simp only [List.map_cons, List.map_nil]
              rw [List.nodup_append]
              refine ⟨hnd2, List.nodup_singleton _, ?_⟩
              intro x hx1 hx2
              have hxk : x = key := by simpa using hx2
              rw [hxk] at hx1
              have hsm := lookupKey_isSome_iff.2 hx1
              rw [hlk2] at hsm
              cases hsm
            · intro k hk
              rw [hps, hero] at hk
              rw [hpm]
              rcases List.mem_append.1 hk with h1 | h2
              · have hkne : k ≠ key := fun he => hknotin (he ▸ h1)
                rw [lookupKey_append_ne hkne]
                have := hfwd2 k (by rw [makeCacheRoom_stack]; exact h1)
                rw [makeCacheRoom_models] at this
                exact this
              · have hkk : k = key := by simpa using h2
                subst hkk
                rw [lookupKey_append_self hlk2]
                rfl
            · intro p hp
              rw [hpm] at hp
              rw [hps, hero]
              rcases List.mem_append.1 hp with h1 | h2
              · have := hbwd2 p (by rw [makeCacheRoom_models]; exact h1)
                rw [makeCacheRoom_stack] at this
                exact List.mem_append.2 (Or.inl this)
              · have : p = (key, ⟨sz, model, 0, refs⟩) := by simpa using h2
                rw [this]
                exact List.mem_append.2 (Or.inr (by simp))
          · rw [hps]
            simp
  · intro c b
    exact makeCacheRoom_stack_sublist c b
  · intro c b k rest r hcs hstN hnd hl hc hb
    rw [makeCacheRoom_stack, hcs]
    have hb2 : (c.cacheSize : Int) + (b : Int) > (c.maxCacheSizeBytes : Int) := hb
    rw [makeRoomLoop_cons_evict hb2 hl hc]
    intro hk
    have hkr := (mr_stack_sublist _ _ _ _ _ _).subset hk
    rw [hcs] at hstN
    simp only [List.nodup_cons] at hstN
    exact hstN.1 hkr

/-- Witness for C5: a hit at a concrete cache, a sublist instance, and a
head eviction instance. -/
theorem claim_C5_witness :
    (stackInv cacheLk ∧
      (cacheLk.getModel true "m" 40 (Except.ok ⟨true, some 0⟩) true 2).2 =
        Except.ok ⟨"m", true, 40⟩ ∧
      (stackInv (cacheLk.getModel true "m" 40 (Except.ok ⟨true, some 0⟩) true 2).1 ∧
        (cacheLk.getModel true "m" 40
          (Except.ok ⟨true, some 0⟩) true 2).1.cacheStack.getLast? = some "m")) ∧
    (cacheC8.makeCacheRoom 50).cacheStack.Sublist cacheC8.cacheStack ∧
    (cacheC8.cacheStack = "b" :: [] ∧
      evictCond "b" ⟨200, ⟨true, some 0⟩, 0, 2⟩ = true ∧
      ((cacheC8.cacheSize : Int) + (50 : Int) > (cacheC8.maxCacheSizeBytes : Int)) ∧
      "b" ∉ (cacheC8.makeCacheRoom 50).cacheStack) :=
  ⟨⟨by decide, by decide,
      claim_C5_lru_invariant.1 cacheLk true "m" 40 (Except.ok ⟨true, some 0⟩) true 2
        ⟨"m", true, 40⟩ (by decide) (by decide)⟩,
    claim_C5_lru_invariant.2.1 cacheC8 50,
    by decide, by decide, by decide,
    claim_C5_lru_invariant.2.2 cacheC8 50 "b" [] ⟨200, ⟨true, some 0⟩, 0, 2⟩
      (by decide) (by decide) (by decide) (by decide) (by decide) (by decide)⟩
